import Mathlib

/-!
Verification development for the Claw2ClawHook order-matching contract.

The contract is shallowly embedded: each external entry point
(postOrder, cancelOrder, beforeSwap, purgeExpiredOrders, claimRefund and
the admin functions) becomes an executable Lean function from a state and
an environment to a new state together with an `Except` outcome.  A revert
is modelled by returning the original state unchanged (EVM rollback
semantics).  Solidity mappings become association lists (with first-match
lookup and in-place update, which coincides with mapping semantics) or
plain functions; `keccak256(abi.encode(key))` is modelled by the key
itself, using injectivity of the hash.  `uint128`/`int256` values are
modelled by `Nat`/`Int`, with the contract's explicit overflow guards and
the wrap-around of the `int128(uint128 x)` reinterpreting cast translated
explicitly.  External token transfers succeed or fail according to an
oracle `Env.xferOk`; the hook's own token balances are tracked in a
`custody` ledger so that escrow-conservation statements can be made.
-/

/-- Association-list lookup with a default, matching Solidity mapping reads. -/
def alookup {α β : Type} [DecidableEq α] (d : β) : List (α × β) → α → β
  | [], _ => d
  | (k, v) :: rest, a => if k = a then v else alookup d rest a

/-- Association-list write: replace the first binding of the key, or append. -/
def aset {α β : Type} [DecidableEq α] : List (α × β) → α → β → List (α × β)
  | [], a, b => [(a, b)]
  | (k, v) :: rest, a, b => if k = a then (a, b) :: rest else (k, v) :: aset rest a b

/-- A market key, standing for the full PoolKey tuple; the poolId
`keccak256(abi.encode(key))` is modelled by the key itself. -/
structure PoolKey where
  currency0 : Nat
  currency1 : Nat
  fee : Nat
  tickSpacing : Int
  hooks : Nat
deriving DecidableEq

/-- The Order struct of the contract. -/
structure Order where
  maker : Nat
  sellToken0 : Bool
  amountIn : Nat
  minAmountOut : Nat
  expiry : Nat
  active : Bool
  poolId : PoolKey
deriving DecidableEq

/-- The all-zero value of an unwritten `orders` mapping slot. -/
def zeroOrder : Order :=
  { maker := 0, sellToken0 := false, amountIn := 0, minAmountOut := 0,
    expiry := 0, active := false, poolId := ⟨0, 0, 0, 0, 0⟩ }

/-- The contract's custom errors (plus the Solidity arithmetic panic). -/
inductive Err where
  | NotAdmin | NotWhitelisted | OrderNotFound | OrderNotActive | Unauthorized
  | AmountOverflow | InvalidAmounts | InvalidDuration | TransferFailed
  | ZeroAddress | PoolMismatch | DurationTooLong | NotPendingAdmin | Panic
deriving DecidableEq

/-- The two SwapParams fields the hook reads. -/
structure SwapParams where
  zeroForOne : Bool
  amountSpecified : Int
deriving DecidableEq

/-- Outcome of `beforeSwap`: either the zero-delta fall-through, or a match
with the full economic terms of the trade and the returned BeforeSwapDelta
(`specified`, `unspecified`). -/
inductive SwapResult where
  | noMatch
  | matched (orderId maker tokenIn tokenOut takerPays makerAmount : Nat)
      (specified unspecified : Int)
deriving DecidableEq

/-- Execution environment of a single call: the block timestamp and an
oracle deciding whether an ERC20 transfer of (token, counterparty, amount)
succeeds. -/
structure Env where
  now : Nat
  xferOk : Nat → Nat → Nat → Bool

/-- The contract's storage, together with a custody ledger tracking the
hook's own token balances (ERC20 balances of the hook address). -/
structure HookState where
  admin : Nat
  pendingAdmin : Nat
  allowedBots : List Nat
  nextOrderId : Nat
  orders : Nat → Order
  poolOrders : List (PoolKey × List Nat)
  unclaimedBalances : List ((Nat × Nat) × Nat)
  custody : List (Nat × Nat)

def MAX_ORDER_DURATION : Nat := 30 * 86400

def MAX_ITERATIONS : Nat := 100

def INT128_MAX : Nat := 2 ^ 127 - 1

def INT256_MIN : Int := -(2 ^ 255)

/-- Model address of the pool manager (transfer-oracle counterparty). -/
def pmAddr : Nat := 2

/-- Model address of the hook contract itself (transfer-oracle counterparty). -/
def hookAddr : Nat := 1

/-- Mapping write for the `orders` mapping. -/
def setOrder (f : Nat → Order) (id : Nat) (o : Order) : Nat → Order :=
  fun j => if j = id then o else f j

/-- Read of `poolOrders[poolId]`. -/
def poLookup (s : HookState) (k : PoolKey) : List Nat :=
  alookup [] s.poolOrders k

/-- The hook's custody balance of a token. -/
def custodyOf (s : HookState) (t : Nat) : Nat :=
  alookup 0 s.custody t

/-- The asset an order escrowed: currency0 of its market if it sells
token0, else currency1. -/
def tokenOf (o : Order) : Nat :=
  if o.sellToken0 then o.poolId.currency0 else o.poolId.currency1

/-- The Solidity reinterpreting cast `int128(uint128 x)`. -/
def int128OfUInt128 (x : Nat) : Int :=
  if x < 2 ^ 127 then (x : Int) else (x : Int) - 2 ^ 128

/-- The candidate filter of the beforeSwap scan loop: active, unexpired,
opposite side, and the taker's input covers the maker's minimum. -/
def matchOkB (o : Order) (zeroForOne : Bool) (takerAmountIn now : Nat) : Bool :=
  o.active && !(decide (now > o.expiry)) && !(o.sellToken0 == zeroForOne)
    && !(decide (takerAmountIn < o.minAmountOut))

/-- The purge filter: active but strictly past expiry. -/
def expiredActiveB (o : Order) (now : Nat) : Bool :=
  o.active && decide (now > o.expiry)

/-- One `ids[i] = ids[ids.length - 1]; ids.pop()` step. -/
def swapPop (l : List Nat) (i : Nat) : List Nat :=
  (l.set i (l.getD (l.length - 1) 0)).dropLast

/-- Index of the first element satisfying the test, scanning from
position `i` (the loop counter of `_removeOrder`). -/
def findIdxFrom (p : Nat → Bool) : List Nat → Nat → Option Nat
  | [], _ => none
  | a :: l, i => if p a then some i else findIdxFrom p l (i + 1)

/-- The `_removeOrder` swap-and-pop: scan for the first occurrence of the
id and swap-pop it; leave the list unchanged when the id is absent. -/
def removeOrder (ids : List Nat) (orderId : Nat) : List Nat :=
  match findIdxFrom (fun x => decide (x = orderId)) ids 0 with
  | some i => swapPop ids i
  | none => ids

/-- The `postOrder` entry point. -/
def postOrder (e : Env) (s : HookState) (sender : Nat) (key : PoolKey)
    (sellToken0 : Bool) (amountIn minAmountOut duration : Nat) :
    HookState × Except Err Nat :=
  if ¬ sender ∈ s.allowedBots then (s, .error .NotWhitelisted)
  else if amountIn = 0 ∨ minAmountOut = 0 then (s, .error .InvalidAmounts)
  else if duration = 0 then (s, .error .InvalidDuration)
  else if MAX_ORDER_DURATION < duration then (s, .error .DurationTooLong)
  else
    let orderId := s.nextOrderId
    let o : Order :=
      { maker := sender, sellToken0 := sellToken0, amountIn := amountIn,
        minAmountOut := minAmountOut, expiry := e.now + duration,
        active := true, poolId := key }
    let tokenIn := if sellToken0 then key.currency0 else key.currency1
    if e.xferOk tokenIn hookAddr amountIn then
      ({ s with
          nextOrderId := orderId + 1
          orders := setOrder s.orders orderId o
          poolOrders := aset s.poolOrders key (poLookup s key ++ [orderId])
          custody := aset s.custody tokenIn (alookup 0 s.custody tokenIn + amountIn) },
        .ok orderId)
    else (s, .error .TransferFailed)

/-- The `cancelOrder` entry point. -/
def cancelOrder (e : Env) (s : HookState) (sender orderId : Nat) (key : PoolKey) :
    HookState × Except Err Unit :=
  let o := s.orders orderId
  if s.nextOrderId ≤ orderId then (s, .error .OrderNotFound)
  else if o.maker = 0 then (s, .error .OrderNotFound)
  else if ¬ sender = o.maker then (s, .error .Unauthorized)
  else if ¬ o.active = true then (s, .error .OrderNotActive)
  else if ¬ key = o.poolId then (s, .error .PoolMismatch)
  else
    let tokenIn := if o.sellToken0 then key.currency0 else key.currency1
    if e.xferOk tokenIn o.maker o.amountIn ∧ o.amountIn ≤ alookup 0 s.custody tokenIn then
      ({ s with
          orders := setOrder s.orders orderId { o with active := false }
          poolOrders := aset s.poolOrders key (removeOrder (poLookup s key) orderId)
          custody := aset s.custody tokenIn (alookup 0 s.custody tokenIn - o.amountIn) },
        .ok ())
    else (s, .error .TransferFailed)

/-- The `beforeSwap` hook entry point (invoked by the pool manager with the
swap initiator as `sender`). -/
def beforeSwap (e : Env) (s : HookState) (sender : Nat) (key : PoolKey)
    (params : SwapParams) : HookState × Except Err SwapResult :=
  if ¬ sender ∈ s.allowedBots then (s, .ok .noMatch)
  else if 0 ≤ params.amountSpecified then (s, .ok .noMatch)
  else if params.amountSpecified = INT256_MIN then (s, .error .AmountOverflow)
  else
    let absAmount : Nat := (- params.amountSpecified).toNat
    if INT128_MAX < absAmount then (s, .error .AmountOverflow)
    else
      let ids := poLookup s key
      match (ids.take MAX_ITERATIONS).find?
          (fun id => matchOkB (s.orders id) params.zeroForOne absAmount e.now) with
      | none => (s, .ok .noMatch)
      | some id =>
        let o := s.orders id
        let inputCurrency := if params.zeroForOne then key.currency0 else key.currency1
        let outputCurrency := if params.zeroForOne then key.currency1 else key.currency0
        let takerPays := o.minAmountOut
        if e.xferOk outputCurrency pmAddr o.amountIn
            ∧ o.amountIn ≤ alookup 0 s.custody outputCurrency then
          if int128OfUInt128 o.amountIn = -(2 ^ 127) then (s, .error .Panic)
          else
            ({ s with
                orders := setOrder s.orders id { o with active := false }
                poolOrders := aset s.poolOrders key (removeOrder ids id)
                custody := aset s.custody outputCurrency
                  (alookup 0 s.custody outputCurrency - o.amountIn) },
              .ok (.matched id o.maker inputCurrency outputCurrency takerPays o.amountIn
                (int128OfUInt128 takerPays) (- int128OfUInt128 o.amountIn)))
        else (s, .error .TransferFailed)

/-- The body of the purge while-loop.  The loop terminates because each
iteration either pops one element (keeping `i`) or increments `i`; the
`fuel` argument is an upper bound on `ids.length - i`, so with initial
fuel `ids.length` the function computes exactly the source loop. -/
def purgeLoop (e : Env) (key : PoolKey) (maxPurge : Nat) :
    Nat → HookState → Nat → Nat → HookState
  | 0, s, _, _ => s
  | fuel + 1, s, i, purged =>
    let ids := poLookup s key
    if i < ids.length ∧ purged < maxPurge then
      let id := ids.getD i 0
      let o := s.orders id
      if o.active = true ∧ e.now > o.expiry then
        let token := if o.sellToken0 then key.currency0 else key.currency1
        let okB : Bool := e.xferOk token o.maker o.amountIn
          && decide (o.amountIn ≤ alookup 0 s.custody token)
        let s1 : HookState :=
          { s with
            orders := setOrder s.orders id { o with active := false }
            poolOrders := aset s.poolOrders key (swapPop ids i)
            custody :=
              if okB then aset s.custody token (alookup 0 s.custody token - o.amountIn)
              else s.custody
            unclaimedBalances :=
              if okB then s.unclaimedBalances
              else aset s.unclaimedBalances (o.maker, token)
                (alookup 0 s.unclaimedBalances (o.maker, token) + o.amountIn) }
        purgeLoop e key maxPurge fuel s1 i (purged + 1)
      else purgeLoop e key maxPurge fuel s (i + 1) purged
    else s

/-- The `purgeExpiredOrders` entry point (permissionless, never reverts). -/
def purgeExpiredOrders (e : Env) (s : HookState) (key : PoolKey) (maxPurge : Nat) :
    HookState :=
  purgeLoop e key maxPurge (poLookup s key).length s 0 0

/-- The `claimRefund` entry point (pull-pattern for failed purge refunds). -/
def claimRefund (e : Env) (s : HookState) (sender token : Nat) :
    HookState × Except Err Nat :=
  let amount := alookup 0 s.unclaimedBalances (sender, token)
  if amount = 0 then (s, .error .InvalidAmounts)
  else if e.xferOk token sender amount ∧ amount ≤ alookup 0 s.custody token then
    ({ s with
        unclaimedBalances := aset s.unclaimedBalances (sender, token) 0
        custody := aset s.custody token (alookup 0 s.custody token - amount) },
      .ok amount)
  else (s, .error .TransferFailed)

/-- The state-mutating entry points of the contract, as one action type. -/
inductive Act where
  | post (sender : Nat) (key : PoolKey) (sellToken0 : Bool) (amountIn minAmountOut duration : Nat)
  | cancel (sender orderId : Nat) (key : PoolKey)
  | swap (sender : Nat) (key : PoolKey) (params : SwapParams)
  | purge (key : PoolKey) (maxPurge : Nat)
  | claim (sender token : Nat)
  | addBot (sender bot : Nat)
  | removeBot (sender bot : Nat)
  | setAdmin (sender newAdmin : Nat)
  | acceptAdmin (sender : Nat)
deriving DecidableEq

/-- Observable outcome of an action. -/
inductive Obs where
  | posted (orderId : Nat)
  | swapped (r : SwapResult)
  | claimed (amount : Nat)
  | done
deriving DecidableEq

/-- Dispatch one action against the contract state.  Reverting actions
return the input state unchanged together with the error. -/
def applyAct (e : Env) (s : HookState) : Act → HookState × Except Err Obs
  | .post sender key st ai mao dur =>
    let r := postOrder e s sender key st ai mao dur
    (r.1, r.2.map .posted)
  | .cancel sender orderId key =>
    let r := cancelOrder e s sender orderId key
    (r.1, r.2.map fun _ => .done)
  | .swap sender key params =>
    let r := beforeSwap e s sender key params
    (r.1, r.2.map .swapped)
  | .purge key maxPurge => (purgeExpiredOrders e s key maxPurge, .ok .done)
  | .claim sender token =>
    let r := claimRefund e s sender token
    (r.1, r.2.map .claimed)
  | .addBot sender bot =>
    if sender = s.admin then
      ({ s with allowedBots :=
          if bot ∈ s.allowedBots then s.allowedBots else s.allowedBots ++ [bot] },
        .ok .done)
    else (s, .error .NotAdmin)
  | .removeBot sender bot =>
    if sender = s.admin then
      ({ s with allowedBots := s.allowedBots.filter (fun b => ¬ b = bot) }, .ok .done)
    else (s, .error .NotAdmin)
  | .setAdmin sender newAdmin =>
    if sender = s.admin then
      if newAdmin = 0 then (s, .error .ZeroAddress)
      else ({ s with pendingAdmin := newAdmin }, .ok .done)
    else (s, .error .NotAdmin)
  | .acceptAdmin sender =>
    if sender = s.pendingAdmin then
      ({ s with admin := sender, pendingAdmin := 0 }, .ok .done)
    else (s, .error .NotPendingAdmin)

/-- The order id matched by an action's outcome, if any. -/
def matchedOf : Except Err Obs → Option Nat
  | .ok (.swapped (.matched id _ _ _ _ _ _ _)) => some id
  | _ => none

/-- All order ids matched along a trace of invocations. -/
def matchedIds : HookState → List (Env × Act) → List Nat
  | _, [] => []
  | s, ea :: tr =>
    let r := applyAct ea.1 s ea.2
    (match matchedOf r.2 with
      | some id => [id]
      | none => []) ++ matchedIds r.1 tr

/-- Structural well-formedness of the contract state: pool-index keys are
unique, every pool's id list is duplicate-free and contains only existing,
active orders whose stored poolId is that pool, and conversely every
active order id is listed in the index of its own pool.  This is the
index/active agreement invariant. -/
def WFb (s : HookState) : Bool :=
  decide ((s.poolOrders.map Prod.fst).Nodup) &&
  s.poolOrders.all (fun kv =>
    decide kv.2.Nodup &&
    kv.2.all (fun id =>
      decide (id < s.nextOrderId) && (s.orders id).active &&
      decide ((s.orders id).poolId = kv.1))) &&
  (List.range s.nextOrderId).all (fun id =>
    !(s.orders id).active || decide (id ∈ poLookup s (s.orders id).poolId))

/-- Propositional form of `WFb`. -/
def WFp (s : HookState) : Prop :=
  (s.poolOrders.map Prod.fst).Nodup ∧
  (∀ kv ∈ s.poolOrders, kv.2.Nodup ∧
    ∀ id ∈ kv.2, id < s.nextOrderId ∧ (s.orders id).active = true ∧
      (s.orders id).poolId = kv.1) ∧
  (∀ id, id < s.nextOrderId → (s.orders id).active = true →
    id ∈ poLookup s (s.orders id).poolId)

/-- Escrow contribution of one order to the total for asset `t`. -/
def contrib (o : Order) (t : Nat) : Nat :=
  if o.active = true then (if tokenOf o = t then o.amountIn else 0) else 0

/-- Sum of escrowed `amountIn` over all active orders for asset `t`. -/
def activeEscrow (s : HookState) (t : Nat) : Nat :=
  ((List.range s.nextOrderId).map (fun id => contrib (s.orders id) t)).sum

/-- Sum of the unclaimed (pull-pattern) balances for asset `t`. -/
def sumTok (u : List ((Nat × Nat) × Nat)) (t : Nat) : Nat :=
  (u.map (fun kv => if kv.1.2 = t then kv.2 else 0)).sum

/-- Strict escrow conservation of the spec for asset `t`: the custody
balance equals the sum over active orders alone. -/
def strictConsvAt (s : HookState) (t : Nat) : Prop :=
  custodyOf s t = activeEscrow s t

/-- Amended escrow conservation for asset `t`: the custody balance equals
active escrow plus unclaimed (failed-refund) balances. -/
def consvAt (s : HookState) (t : Nat) : Prop :=
  custodyOf s t = activeEscrow s t + sumTok s.unclaimedBalances t

/-- Whether an order id occurs in no pool's index list. -/
def notInAnyPoolB (s : HookState) (id : Nat) : Bool :=
  s.poolOrders.all (fun kv => decide (id ∉ kv.2))

/-- The state effect of one purging iteration of the loop at index `i`. -/
def purgeStep (e : Env) (key : PoolKey) (s : HookState) (i : Nat) : HookState :=
  let ids := poLookup s key
  let id := ids.getD i 0
  let o := s.orders id
  let token := if o.sellToken0 then key.currency0 else key.currency1
  let okB : Bool := e.xferOk token o.maker o.amountIn
    && decide (o.amountIn ≤ alookup 0 s.custody token)
  { s with
    orders := setOrder s.orders id { o with active := false }
    poolOrders := aset s.poolOrders key (swapPop ids i)
    custody :=
      if okB then aset s.custody token (alookup 0 s.custody token - o.amountIn)
      else s.custody
    unclaimedBalances :=
      if okB then s.unclaimedBalances
      else aset s.unclaimedBalances (o.maker, token)
        (alookup 0 s.unclaimedBalances (o.maker, token) + o.amountIn) }

/-- Amended conservation, all assets at once. -/
def Consv (s : HookState) : Prop := ∀ t, consvAt s t

def isErr {α : Type} : Except Err α → Bool
  | .error _ => true
  | .ok _ => false

/-- Example market key. -/
def exKey : PoolKey := ⟨10, 11, 3000, 60, 1⟩

/-- A different market over the same asset pair (different fee/spacing). -/
def exKey2 : PoolKey := ⟨10, 11, 500, 10, 1⟩

/-- Example environment: timestamp 100, all transfers succeed. -/
def exEnv : Env := ⟨100, fun _ _ _ => true⟩

/-- Environment past expiry of the example order. -/
def exEnvLate : Env := ⟨5000, fun _ _ _ => true⟩

/-- Environment past expiry where every token transfer fails. -/
def exEnvLateFail : Env := ⟨5000, fun _ _ _ => false⟩

/-- Environment exactly at the example order's expiry. -/
def exEnvBoundary : Env := ⟨3700, fun _ _ _ => true⟩

/-- Example resting order: maker 5 sells 100 of asset 10 for at least 95
of asset 11, expiring at 3700. -/
def exOrder : Order :=
  { maker := 5, sellToken0 := true, amountIn := 100, minAmountOut := 95,
    expiry := 3700, active := true, poolId := exKey }

/-- Example state: one active order escrowing 100 of asset 10. -/
def exState : HookState :=
  { admin := 9, pendingAdmin := 0, allowedBots := [5, 6], nextOrderId := 1,
    orders := fun j => if j = 0 then exOrder else zeroOrder,
    poolOrders := [(exKey, [0])], unclaimedBalances := [], custody := [(10, 100)] }

/-- Example state after a failed push refund: the order is inactive, its
escrow sits in the maker's unclaimed balance, tokens still in custody. -/
def exStateU : HookState :=
  { admin := 9, pendingAdmin := 0, allowedBots := [5, 6], nextOrderId := 1,
    orders := fun j => if j = 0 then { exOrder with active := false } else zeroOrder,
    poolOrders := [(exKey, [])], unclaimedBalances := [((5, 10), 100)],
    custody := [(10, 100)] }

/-- Example state with an order whose amountIn does not fit in int128. -/
def cex3State : HookState :=
  { admin := 9, pendingAdmin := 0, allowedBots := [5, 6], nextOrderId := 1,
    orders := fun j => if j = 0 then
        { maker := 5, sellToken0 := true, amountIn := 2 ^ 127 + 1, minAmountOut := 95,
          expiry := 3700, active := true, poolId := exKey }
      else zeroOrder,
    poolOrders := [(exKey, [0])], unclaimedBalances := [],
    custody := [(10, 2 ^ 127 + 1)] }

/-- Example state with two orders in the same market, the first expired at
timestamp 5000 and the second not. -/
def ex7State : HookState :=
  { admin := 9, pendingAdmin := 0, allowedBots := [5, 6], nextOrderId := 2,
    orders := fun j =>
      if j = 0 then exOrder
      else if j = 1 then
        { maker := 5, sellToken0 := true, amountIn := 50, minAmountOut := 40,
          expiry := 9000, active := true, poolId := exKey }
      else zeroOrder,
    poolOrders := [(exKey, [0, 1])], unclaimedBalances := [],
    custody := [(10, 150)] }

theorem alookup_aset_self {α β : Type} [DecidableEq α] (d : β) (l : List (α × β)) (a : α) (b : β) :
    alookup d (aset l a b) a = b := by
  induction l with
  | nil => simp [aset, alookup]
  | cons kv rest ih =>
    obtain ⟨k, v⟩ := kv
    by_cases h : k = a
    · simp [aset, alookup, h]
    · simp [aset, alookup, h, ih]

theorem alookup_aset_ne {α β : Type} [DecidableEq α] (d : β) (l : List (α × β)) (a a' : α) (b : β)
    (h : a' ≠ a) : alookup d (aset l a b) a' = alookup d l a' := by
  have ha : a ≠ a' := fun hc => h hc.symm
  induction l with
  | nil => simp [aset, alookup, ha]
  | cons kv rest ih =>
    obtain ⟨k, v⟩ := kv
    by_cases hk : k = a
    · subst hk
      simp [aset, alookup, ha]
    · simp only [aset, if_neg hk]
      by_cases hk' : k = a'
      · simp [alookup, hk']
      · simp [alookup, hk', ih]

theorem mem_aset {α β : Type} [DecidableEq α] (l : List (α × β)) (a : α) (b : β)
    (p : α × β) (hp : p ∈ aset l a b) : p = (a, b) ∨ p ∈ l := by
  induction l with
  | nil => simpa [aset] using hp
  | cons kv rest ih =>
    obtain ⟨k, v⟩ := kv
    by_cases hk : k = a
    · simp only [aset, if_pos hk] at hp
      rw [List.mem_cons] at hp
      rcases hp with hp | hp
      · exact Or.inl hp
      · exact Or.inr (List.mem_cons_of_mem _ hp)
    · simp only [aset, if_neg hk] at hp
      rw [List.mem_cons] at hp
      rcases hp with hp | hp
      · exact Or.inr (by simp [hp])
      · rcases ih hp with h | h
        · exact Or.inl h
        · exact Or.inr (List.mem_cons_of_mem _ h)

theorem keys_mem_aset {α β : Type} [DecidableEq α] (l : List (α × β)) (a : α) (b : β)
    (x : α) (hx : x ∈ (aset l a b).map Prod.fst) : x ∈ l.map Prod.fst ∨ x = a := by
  rcases List.mem_map.1 hx with ⟨p, hp, rfl⟩
  rcases mem_aset l a b p hp with h | h
  · subst h; exact Or.inr rfl
  · exact Or.inl (List.mem_map_of_mem _ h)

theorem keysNodup_aset {α β : Type} [DecidableEq α] (l : List (α × β)) (a : α) (b : β)
    (h : (l.map Prod.fst).Nodup) : ((aset l a b).map Prod.fst).Nodup := by
  induction l with
  | nil => simp [aset]
  | cons kv rest ih =>
    obtain ⟨k, v⟩ := kv
    simp only [List.map_cons, List.nodup_cons] at h
    by_cases hk : k = a
    · simp only [aset, if_pos hk, List.map_cons, List.nodup_cons]
      exact ⟨by simpa [hk] using h.1, h.2⟩
    · simp only [aset, if_neg hk, List.map_cons, List.nodup_cons]
      refine ⟨fun hc => ?_, ih h.2⟩
      rcases keys_mem_aset rest a b k hc with hm | hm
      · exact h.1 hm
      · exact hk hm

theorem mem_aset_nodup {α β : Type} [DecidableEq α] (l : List (α × β)) (a : α) (b : β)
    (hnd : (l.map Prod.fst).Nodup) (p : α × β) (hp : p ∈ aset l a b) :
    p = (a, b) ∨ (p ∈ l ∧ p.1 ≠ a) := by
  induction l with
  | nil => simp [aset] at hp; exact Or.inl hp
  | cons kv rest ih =>
    obtain ⟨k, v⟩ := kv
    simp only [List.map_cons, List.nodup_cons] at hnd
    by_cases hk : k = a
    · subst hk
      simp only [aset, if_pos rfl, if_true, eq_self_iff_true] at hp
      rw [List.mem_cons] at hp
      rcases hp with hp | hp
      · exact Or.inl hp
      · refine Or.inr ⟨List.mem_cons_of_mem _ hp, fun hc => ?_⟩
        exact hnd.1 (by rw [← hc]; exact List.mem_map_of_mem _ hp)
    · simp only [aset, if_neg hk] at hp
      rw [List.mem_cons] at hp
      rcases hp with hp | hp
      · exact Or.inr ⟨by simp [hp], by simp [hp, hk]⟩
      · rcases ih hnd.2 hp with h | h
        · exact Or.inl h
        · exact Or.inr ⟨List.mem_cons_of_mem _ h.1, h.2⟩

/-- The value bound to a key is a member entry, provided it is not the default. -/
theorem mem_of_alookup_ne_default {α β : Type} [DecidableEq α] (d : β) (l : List (α × β)) (a : α)
    (h : alookup d l a ≠ d) : (a, alookup d l a) ∈ l := by
  induction l with
  | nil => simp [alookup] at h
  | cons kv rest ih =>
    obtain ⟨k, v⟩ := kv
    by_cases hk : k = a
    · subst hk; simp [alookup]
    · simp only [alookup, if_neg hk] at h ⊢
      exact List.mem_cons_of_mem _ (ih h)

theorem alookup_eq_of_mem_nodup {α β : Type} [DecidableEq α] (d : β) (l : List (α × β))
    (hnd : (l.map Prod.fst).Nodup) (p : α × β) (hp : p ∈ l) : alookup d l p.1 = p.2 := by
  induction l with
  | nil => simp at hp
  | cons kv rest ih =>
    obtain ⟨k, v⟩ := kv
    simp only [List.map_cons, List.nodup_cons] at hnd
    rw [List.mem_cons] at hp
    rcases hp with hp | hp
    · simp [alookup, hp]
    · have hk : k ≠ p.1 := by
        intro hc
        exact hnd.1 (by rw [hc]; exact List.mem_map_of_mem _ hp)
      simp [alookup, hk, ih hnd.2 hp]

theorem WFb_iff_WFp (s : HookState) : WFb s = true ↔ WFp s := by
  unfold WFb WFp
  simp only [Bool.and_eq_true, List.all_eq_true, decide_eq_true_eq, Bool.or_eq_true,
    Bool.not_eq_true', List.mem_range]
  constructor
  · rintro ⟨⟨h1, h2⟩, h3⟩
    refine ⟨h1, fun kv hkv => ?_, fun id hid ha => ?_⟩
    · obtain ⟨ha', hb⟩ := h2 kv hkv
      exact ⟨ha', fun id hid => by
        obtain ⟨⟨x, y⟩, z⟩ := hb id hid
        exact ⟨x, y, z⟩⟩
    · rcases h3 id hid with h | h
      · rw [ha] at h; cases h
      · exact h
  · rintro ⟨h1, h2, h3⟩
    refine ⟨⟨h1, fun kv hkv => ⟨(h2 kv hkv).1, fun id hid => ?_⟩⟩, fun id hid => ?_⟩
    · obtain ⟨x, y, z⟩ := (h2 kv hkv).2 id hid
      exact ⟨⟨x, y⟩, z⟩
    · by_cases ha : (s.orders id).active = true
      · exact Or.inr (h3 id hid ha)
      · exact Or.inl (by simpa using ha)

theorem swapPop_char (l : List Nat) (i : Nat) (hi : i < l.length) :
    ∃ r, swapPop l i = l.take i ++ r ∧ r.Perm (l.drop (i + 1)) := by
  have hset : l.set i (l.getD (l.length - 1) 0)
      = l.take i ++ l.getD (l.length - 1) 0 :: l.drop (i + 1) := by
    rw [List.set_eq_take_append_cons_drop, if_pos hi]
  have hlen : (l.set i (l.getD (l.length - 1) 0)).length = l.length := List.length_set l _ _
  have htklen : (List.take i l).length = i := by rw [List.length_take]; omega
  have hsp : swapPop l i
      = l.take i ++ List.take (l.length - 1 - i) (l.getD (l.length - 1) 0 :: l.drop (i + 1)) := by
    unfold swapPop
    rw [List.dropLast_eq_take, hlen, hset, List.take_append_eq_append_take, htklen,
      List.take_take, show min (l.length - 1) i = i from by omega]
  by_cases hlast : i + 1 = l.length
  · refine ⟨[], ?_, ?_⟩
    · rw [hsp, show l.length - 1 - i = 0 from by omega, List.take_zero]
    · rw [hlast, List.drop_length]
  · have hi1 : i + 1 < l.length := by omega
    have hdlen : (l.drop (i + 1)).length = l.length - (i + 1) := List.length_drop _ _
    have hd : l.drop (i + 1) ≠ [] := by
      intro hc
      rw [hc] at hdlen
      simp at hdlen
      omega
    have hgl : (l.drop (i + 1)).getLast hd = l.getD (l.length - 1) 0 := by
      rw [List.getLast_eq_getElem, List.getElem_drop,
        List.getD_eq_getElem l 0 (show l.length - 1 < l.length from by omega)]
      congr 1
      rw [hdlen]
      omega
    have htake1 : List.take (l.length - 1 - i) (l.getD (l.length - 1) 0 :: l.drop (i + 1))
        = l.getD (l.length - 1) 0 :: List.take (l.length - 2 - i) (l.drop (i + 1)) := by
      rw [show l.length - 1 - i = (l.length - 2 - i) + 1 from by omega, List.take_succ_cons]
    have htake2 : List.take (l.length - 2 - i) (l.drop (i + 1)) = (l.drop (i + 1)).dropLast := by
      rw [List.dropLast_eq_take, hdlen, show l.length - (i + 1) - 1 = l.length - 2 - i from by omega]
    refine ⟨l.getD (l.length - 1) 0 :: (l.drop (i + 1)).dropLast, ?_, ?_⟩
    · rw [hsp, htake1, htake2]
    · have hp1 : ((l.drop (i + 1)).dropLast ++ [(l.drop (i + 1)).getLast hd]).Perm
          ((l.drop (i + 1)).getLast hd :: (l.drop (i + 1)).dropLast) :=
        List.perm_append_singleton _ _
      rw [List.dropLast_append_getLast hd] at hp1
      have hp2 := hp1.symm
      rw [hgl] at hp2
      exact hp2

/-- One swap-pop step removes exactly the element at index `i`, as a
permutation statement. -/
theorem swapPop_cons_perm (l : List Nat) (i : Nat) (hi : i < l.length) :
    l.Perm (l.getD i 0 :: swapPop l i) := by
  obtain ⟨r, hr, hperm⟩ := swapPop_char l i hi
  rw [hr]
  have hl : l = l.take i ++ l.getD i 0 :: l.drop (i + 1) := by
    conv_lhs => rw [← List.take_append_drop i l]
    rw [List.drop_eq_getElem_cons hi, List.getD_eq_getElem l 0 hi]
  have h1 : (l.take i ++ l.getD i 0 :: l.drop (i + 1)).Perm
      (l.getD i 0 :: (l.take i ++ l.drop (i + 1))) := List.perm_middle
  have h2 : (l.take i ++ l.drop (i + 1)).Perm (l.take i ++ r) :=
    List.Perm.append_left _ hperm.symm
  conv_lhs => rw [hl]
  exact h1.trans (List.Perm.cons _ h2)

theorem swapPop_take (l : List Nat) (i : Nat) (hi : i < l.length) :
    (swapPop l i).take i = l.take i := by
  obtain ⟨r, hr, _⟩ := swapPop_char l i hi
  rw [hr, List.take_left' (by rw [List.length_take]; omega)]

theorem swapPop_drop_perm (l : List Nat) (i : Nat) (hi : i < l.length) :
    ((swapPop l i).drop i).Perm (l.drop (i + 1)) := by
  obtain ⟨r, hr, hperm⟩ := swapPop_char l i hi
  rw [hr, List.drop_left' (by rw [List.length_take]; omega)]
  exact hperm

theorem swapPop_length (l : List Nat) (i : Nat) (hi : i < l.length) :
    (swapPop l i).length + 1 = l.length := by
  have := (swapPop_cons_perm l i hi).length_eq
  simp at this
  omega

theorem getD_mem (l : List Nat) (i : Nat) (hi : i < l.length) : l.getD i 0 ∈ l := by
  rw [List.getD_eq_getElem l 0 hi]
  exact List.getElem_mem hi

theorem getD_not_mem_take (l : List Nat) (i : Nat) (hi : i < l.length) (hnd : l.Nodup) :
    l.getD i 0 ∉ l.take i := by
  intro hc
  have hdisj := List.disjoint_take_drop (l := l) hnd (le_refl i)
  refine hdisj hc ?_
  rw [List.drop_eq_getElem_cons hi, List.getD_eq_getElem l 0 hi]
  exact List.mem_cons_self _ _

theorem findIdxFrom_none_spec (p : Nat → Bool) (l : List Nat) (i : Nat)
    (h : findIdxFrom p l i = none) : ∀ x ∈ l, p x = false := by
  induction l generalizing i with
  | nil => intro x hx; cases hx
  | cons a t ih =>
    intro x hx
    by_cases hp : p a
    · simp [findIdxFrom, hp] at h
    · rw [List.mem_cons] at hx
      rcases hx with rfl | hx
      · simpa using hp
      · exact ih (i + 1) (by simpa [findIdxFrom, hp] using h) x hx

theorem findIdxFrom_some_spec (p : Nat → Bool) (l : List Nat) (i j : Nat)
    (h : findIdxFrom p l i = some j) :
    i ≤ j ∧ j - i < l.length ∧ p (l.getD (j - i) 0) = true := by
  induction l generalizing i with
  | nil => simp [findIdxFrom] at h
  | cons a t ih =>
    by_cases hp : p a
    · simp only [findIdxFrom, hp, if_true] at h
      cases h
      refine ⟨le_refl _, by simp, ?_⟩
      simp [hp]
    · simp only [findIdxFrom, hp, if_false, Bool.false_eq_true] at h
      obtain ⟨h1, h2, h3⟩ := ih (i + 1) h
      refine ⟨by omega, by simp; omega, ?_⟩
      rw [show j - i = (j - (i + 1)) + 1 by omega, List.getD_cons_succ]
      exact h3

theorem removeOrder_not_mem (ids : List Nat) (orderId : Nat) (h : orderId ∉ ids) :
    removeOrder ids orderId = ids := by
  unfold removeOrder
  cases hf : findIdxFrom (fun x => decide (x = orderId)) ids 0 with
  | none => rfl
  | some i =>
    obtain ⟨-, h2, h3⟩ := findIdxFrom_some_spec _ _ _ _ hf
    simp only [Nat.sub_zero] at h2 h3
    rw [decide_eq_true_eq] at h3
    exact absurd (h3 ▸ getD_mem ids i h2) h

/-- Removing a present id is, up to permutation, deleting one occurrence. -/
theorem removeOrder_cons_perm (ids : List Nat) (orderId : Nat) (h : orderId ∈ ids) :
    ids.Perm (orderId :: removeOrder ids orderId) := by
  unfold removeOrder
  cases hf : findIdxFrom (fun x => decide (x = orderId)) ids 0 with
  | none =>
    have := findIdxFrom_none_spec _ _ _ hf orderId h
    simp at this
  | some i =>
    obtain ⟨-, h2, h3⟩ := findIdxFrom_some_spec _ _ _ _ hf
    simp only [Nat.sub_zero] at h2 h3
    rw [decide_eq_true_eq] at h3
    rw [← h3]
    exact swapPop_cons_perm ids i h2

theorem removeOrder_spec (ids : List Nat) (id : Nat) (hmem : id ∈ ids) (hnd : ids.Nodup) :
    (removeOrder ids id).Nodup ∧ id ∉ removeOrder ids id ∧
    (∀ j, j ≠ id → (j ∈ removeOrder ids id ↔ j ∈ ids)) ∧
    (removeOrder ids id).length + 1 = ids.length := by
  have hperm := removeOrder_cons_perm ids id hmem
  have hnd' : (id :: removeOrder ids id).Nodup := hperm.nodup hnd
  rw [List.nodup_cons] at hnd'
  refine ⟨hnd'.2, hnd'.1, fun j hj => ?_, ?_⟩
  · rw [hperm.mem_iff, List.mem_cons]
    constructor
    · intro hx; exact Or.inr hx
    · rintro (rfl | hx)
      · exact absurd rfl hj
      · exact hx
  · have := hperm.length_eq
    simp at this
    omega

theorem contribSum_congr (f g : Nat → Order) (n t : Nat) (h : ∀ j, j < n → f j = g j) :
    ((List.range n).map (fun id => contrib (f id) t)).sum
      = ((List.range n).map (fun id => contrib (g id) t)).sum := by
  induction n with
  | zero => rfl
  | succ n ih =>
    rw [List.range_succ, List.map_append, List.map_append, List.sum_append, List.sum_append,
      ih (fun j hj => h j (Nat.lt_succ_of_lt hj))]
    simp [h n (Nat.lt_succ_self n)]

theorem contribSum_set (f : Nat → Order) (o : Order) (n t id : Nat) (hid : id < n) :
    ((List.range n).map (fun j => contrib (setOrder f id o j) t)).sum + contrib (f id) t
      = ((List.range n).map (fun j => contrib (f j) t)).sum + contrib o t := by
  induction n with
  | zero => exact absurd hid (Nat.not_lt_zero id)
  | succ n ih =>
    rw [List.range_succ, List.map_append, List.map_append, List.sum_append, List.sum_append]
    by_cases h : id = n
    · subst h
      rw [contribSum_congr (fun j => setOrder f id o j) f id t
        (fun j hj => by simp [setOrder, Nat.ne_of_lt hj])]
      simp [setOrder]
      omega
    · have hid' : id < n := by omega
      have hlast : setOrder f id o n = f n := by simp [setOrder, h, Ne.symm h]
      simp only [List.map_cons, List.map_nil, List.sum_cons, List.sum_nil, hlast]
      have := ih hid'
      omega

theorem contribSum_append_new (f : Nat → Order) (o : Order) (n t : Nat) :
    ((List.range (n + 1)).map (fun j => contrib (setOrder f n o j) t)).sum
      = ((List.range n).map (fun j => contrib (f j) t)).sum + contrib o t := by
  rw [List.range_succ, List.map_append, List.sum_append,
    contribSum_congr (fun j => setOrder f n o j) f n t
      (fun j hj => by simp [setOrder, Nat.ne_of_lt hj])]
  simp [setOrder]

theorem sumTok_aset_eq (u : List ((Nat × Nat) × Nat)) (k : Nat × Nat) (v : Nat) (t : Nat) :
    sumTok (aset u k v) t + (if k.2 = t then alookup 0 u k else 0)
      = sumTok u t + (if k.2 = t then v else 0) := by
  induction u with
  | nil => simp [aset, sumTok, alookup]
  | cons kv rest ih =>
    obtain ⟨k0, v0⟩ := kv
    by_cases hk : k0 = k
    · subst hk
      simp only [aset, if_pos rfl, eq_self_iff_true, if_true, sumTok, List.map_cons,
        List.sum_cons, alookup]
      omega
    · simp only [aset, if_neg hk, sumTok, List.map_cons, List.sum_cons]
      rw [show alookup 0 ((k0, v0) :: rest) k = alookup 0 rest k from by simp [alookup, hk]]
      have := ih
      simp only [sumTok] at this
      omega

theorem poLookup_entry (s : HookState) (k : PoolKey) (hne : poLookup s k ≠ []) :
    (k, poLookup s k) ∈ s.poolOrders :=
  mem_of_alookup_ne_default [] s.poolOrders k hne

theorem poLookup_props (s : HookState) (hWF : WFp s) (k : PoolKey) (j : Nat)
    (hj : j ∈ poLookup s k) :
    j < s.nextOrderId ∧ (s.orders j).active = true ∧ (s.orders j).poolId = k := by
  have hne : poLookup s k ≠ [] := by
    intro hc
    rw [hc] at hj
    cases hj
  exact (hWF.2.1 _ (poLookup_entry s k hne)).2 j hj

theorem poLookup_nodup (s : HookState) (hWF : WFp s) (k : PoolKey) :
    (poLookup s k).Nodup := by
  by_cases hne : poLookup s k = []
  · rw [hne]; exact List.nodup_nil
  · exact (hWF.2.1 _ (poLookup_entry s k hne)).1

theorem poLookup_aset_self (s : HookState) (k : PoolKey) (v : List Nat) :
    alookup [] (aset s.poolOrders k v) k = v :=
  alookup_aset_self [] s.poolOrders k v

/-- Deactivating an order and simultaneously replacing its pool's index
list with one that drops exactly that id preserves well-formedness.  This
is the common shape of cancelOrder, the beforeSwap match and one purge
iteration. -/
theorem WFp_deactRemove (s s' : HookState) (id : Nat) (key : PoolKey) (newIds : List Nat)
    (hWF : WFp s)
    (h1 : s'.poolOrders = aset s.poolOrders key newIds)
    (h2 : s'.orders = setOrder s.orders id { s.orders id with active := false })
    (h3 : s'.nextOrderId = s.nextOrderId)
    (hmem : id ∈ poLookup s key) (hnd : newIds.Nodup) (hnm : id ∉ newIds)
    (hiff : ∀ j, j ≠ id → (j ∈ newIds ↔ j ∈ poLookup s key)) : WFp s' := by
  obtain ⟨hidlt, hidact, hidpool⟩ := poLookup_props s hWF key id hmem
  obtain ⟨W1, W2, W3⟩ := hWF
  have horders_ne : ∀ j, j ≠ id → s'.orders j = s.orders j := by
    intro j hj
    rw [h2]
    simp [setOrder, hj]
  have horders_id : (s'.orders id).active = false := by
    rw [h2]
    simp [setOrder]
  refine ⟨?_, ?_, ?_⟩
  · rw [h1]
    exact keysNodup_aset _ _ _ W1
  · intro kv hkv
    rw [h1] at hkv
    rcases mem_aset_nodup _ _ _ W1 kv hkv with hkv' | ⟨hkv', hkne⟩
    · subst hkv'
      refine ⟨hnd, fun j hj => ?_⟩
      have hjne : j ≠ id := fun hc => hnm (hc ▸ hj)
      have hjmem : j ∈ poLookup s key := (hiff j hjne).1 hj
      obtain ⟨ha, hb, hc⟩ := poLookup_props s ⟨W1, W2, W3⟩ key j hjmem
      rw [horders_ne j hjne, h3]
      exact ⟨ha, hb, hc⟩
    · obtain ⟨hknd, hkprops⟩ := W2 kv hkv'
      refine ⟨hknd, fun j hj => ?_⟩
      obtain ⟨ha, hb, hc⟩ := hkprops j hj
      have hjne : j ≠ id := by
        intro hc'
        subst hc'
        exact hkne (by rw [← hidpool, hc])
      rw [horders_ne j hjne, h3]
      exact ⟨ha, hb, hc⟩
  · intro j hj hact
    have hjne : j ≠ id := by
      intro hc
      subst hc
      rw [horders_id] at hact
      cases hact
    rw [horders_ne j hjne] at hact ⊢
    rw [h3] at hj
    have hmem' := W3 j hj hact
    by_cases hp : (s.orders j).poolId = key
    · rw [hp]
      unfold poLookup
      rw [h1, poLookup_aset_self]
      rw [hp] at hmem'
      exact (hiff j hjne).2 hmem'
    · unfold poLookup
      rw [h1, alookup_aset_ne [] s.poolOrders key _ newIds hp]
      exact hmem'

/-- Well-formedness only reads the index, the orders mapping and the id
counter. -/
theorem WFp_congr (s s' : HookState) (h1 : s'.poolOrders = s.poolOrders)
    (h2 : s'.orders = s.orders) (h3 : s'.nextOrderId = s.nextOrderId)
    (hWF : WFp s) : WFp s' := by
  obtain ⟨W1, W2, W3⟩ := hWF
  refine ⟨by rw [h1]; exact W1, ?_, ?_⟩
  · intro kv hkv
    rw [h1] at hkv
    obtain ⟨ha, hb⟩ := W2 kv hkv
    exact ⟨ha, fun id hid => by rw [h2, h3]; exact hb id hid⟩
  · intro id hid hact
    rw [h3] at hid
    rw [h2] at hact ⊢
    unfold poLookup
    rw [h1]
    exact W3 id hid hact

theorem postOrder_cases (e : Env) (s : HookState) (sender : Nat) (key : PoolKey)
    (st : Bool) (ai mao dur : Nat) :
    (postOrder e s sender key st ai mao dur).1 = s ∨
    (sender ∈ s.allowedBots ∧ ¬ (ai = 0 ∨ mao = 0) ∧ ¬ dur = 0 ∧ ¬ MAX_ORDER_DURATION < dur ∧
      (postOrder e s sender key st ai mao dur).2 = .ok s.nextOrderId ∧
      (postOrder e s sender key st ai mao dur).1 =
        { s with
            nextOrderId := s.nextOrderId + 1
            orders := setOrder s.orders s.nextOrderId
              { maker := sender, sellToken0 := st, amountIn := ai, minAmountOut := mao,
                expiry := e.now + dur, active := true, poolId := key }
            poolOrders := aset s.poolOrders key (poLookup s key ++ [s.nextOrderId])
            custody := aset s.custody (if st then key.currency0 else key.currency1)
              (alookup 0 s.custody (if st then key.currency0 else key.currency1) + ai) }) := by
  unfold postOrder
  by_cases h1 : ¬ sender ∈ s.allowedBots
  · rw [if_pos h1]; exact Or.inl rfl
  · rw [if_neg h1]
    by_cases h2 : ai = 0 ∨ mao = 0
    · rw [if_pos h2]; exact Or.inl rfl
    · rw [if_neg h2]
      by_cases h3 : dur = 0
      · rw [if_pos h3]; exact Or.inl rfl
      · rw [if_neg h3]
        by_cases h4 : MAX_ORDER_DURATION < dur
        · rw [if_pos h4]; exact Or.inl rfl
        · rw [if_neg h4]
          by_cases h5 : e.xferOk (if st then key.currency0 else key.currency1) hookAddr ai = true
          · rw [if_pos h5]
            exact Or.inr ⟨not_not.1 h1, h2, h3, h4, rfl, rfl⟩
          · rw [if_neg h5]
            exact Or.inl rfl

theorem cancelOrder_cases (e : Env) (s : HookState) (sender orderId : Nat) (key : PoolKey) :
    (cancelOrder e s sender orderId key).1 = s ∨
    (orderId < s.nextOrderId ∧ (s.orders orderId).maker ≠ 0 ∧
      sender = (s.orders orderId).maker ∧ (s.orders orderId).active = true ∧
      key = (s.orders orderId).poolId ∧
      (cancelOrder e s sender orderId key).1 =
        { s with
            orders := setOrder s.orders orderId { s.orders orderId with active := false }
            poolOrders := aset s.poolOrders key (removeOrder (poLookup s key) orderId)
            custody :=
              aset s.custody
                (if (s.orders orderId).sellToken0 then key.currency0 else key.currency1)
                (alookup 0 s.custody
                  (if (s.orders orderId).sellToken0 then key.currency0 else key.currency1)
                  - (s.orders orderId).amountIn) }) := by
  unfold cancelOrder
  by_cases h1 : s.nextOrderId ≤ orderId
  · rw [if_pos h1]; exact Or.inl rfl
  · rw [if_neg h1]
    by_cases h2 : (s.orders orderId).maker = 0
    · rw [if_pos h2]; exact Or.inl rfl
    · rw [if_neg h2]
      by_cases h3 : ¬ sender = (s.orders orderId).maker
      · rw [if_pos h3]; exact Or.inl rfl
      · rw [if_neg h3]
        by_cases h4 : ¬ (s.orders orderId).active = true
        · rw [if_pos h4]; exact Or.inl rfl
        · rw [if_neg h4]
          by_cases h5 : ¬ key = (s.orders orderId).poolId
          · rw [if_pos h5]; exact Or.inl rfl
          · rw [if_neg h5]
            by_cases h6 : e.xferOk
                  (if (s.orders orderId).sellToken0 then key.currency0 else key.currency1)
                  (s.orders orderId).maker (s.orders orderId).amountIn
                ∧ (s.orders orderId).amountIn ≤ alookup 0 s.custody
                  (if (s.orders orderId).sellToken0 then key.currency0 else key.currency1)
            · rw [if_pos h6]
              right
              exact ⟨by omega, h2, not_not.1 h3, not_not.1 h4, not_not.1 h5, rfl⟩
            · rw [if_neg h6]; exact Or.inl rfl

theorem claimRefund_cases (e : Env) (s : HookState) (sender token : Nat) :
    (claimRefund e s sender token).1 = s ∨
    (alookup 0 s.unclaimedBalances (sender, token) ≠ 0 ∧
      (claimRefund e s sender token).1 =
        { s with
            unclaimedBalances := aset s.unclaimedBalances (sender, token) 0
            custody := aset s.custody token
              (alookup 0 s.custody token - alookup 0 s.unclaimedBalances (sender, token)) }) := by
  unfold claimRefund
  by_cases h1 : alookup 0 s.unclaimedBalances (sender, token) = 0
  · rw [if_pos h1]; exact Or.inl rfl
  · rw [if_neg h1]
    by_cases h2 : e.xferOk token sender (alookup 0 s.unclaimedBalances (sender, token))
        ∧ alookup 0 s.unclaimedBalances (sender, token) ≤ alookup 0 s.custody token
    · rw [if_pos h2]; exact Or.inr ⟨h1, rfl⟩
    · rw [if_neg h2]; exact Or.inl rfl

theorem beforeSwap_cases (e : Env) (s : HookState) (sender : Nat) (key : PoolKey)
    (params : SwapParams) :
    (beforeSwap e s sender key params).1 = s ∨
    ∃ id, ((poLookup s key).take MAX_ITERATIONS).find?
        (fun j => matchOkB (s.orders j) params.zeroForOne
          ((- params.amountSpecified).toNat) e.now) = some id ∧
      (beforeSwap e s sender key params).1 =
        { s with
            orders := setOrder s.orders id { s.orders id with active := false }
            poolOrders := aset s.poolOrders key (removeOrder (poLookup s key) id)
            custody := aset s.custody (if params.zeroForOne then key.currency1 else key.currency0)
              (alookup 0 s.custody (if params.zeroForOne then key.currency1 else key.currency0)
                - (s.orders id).amountIn) } := by
  unfold beforeSwap
  by_cases h1 : ¬ sender ∈ s.allowedBots
  · rw [if_pos h1]; exact Or.inl rfl
  · rw [if_neg h1]
    by_cases h2 : 0 ≤ params.amountSpecified
    · rw [if_pos h2]; exact Or.inl rfl
    · rw [if_neg h2]
      by_cases h3 : params.amountSpecified = INT256_MIN
      · rw [if_pos h3]; exact Or.inl rfl
      · rw [if_neg h3]
        dsimp only
        by_cases h4 : INT128_MAX < (- params.amountSpecified).toNat
        · rw [if_pos h4]; exact Or.inl rfl
        · rw [if_neg h4]
          cases hf : ((poLookup s key).take MAX_ITERATIONS).find?
              (fun j => matchOkB (s.orders j) params.zeroForOne
                ((- params.amountSpecified).toNat) e.now) with
          | none => exact Or.inl rfl
          | some id =>
            dsimp only
            by_cases h5 : e.xferOk (if params.zeroForOne then key.currency1 else key.currency0)
                  pmAddr (s.orders id).amountIn = true
                ∧ (s.orders id).amountIn ≤ alookup 0 s.custody
                  (if params.zeroForOne then key.currency1 else key.currency0)
            · rw [if_pos h5]
              by_cases h6 : int128OfUInt128 (s.orders id).amountIn = -(2 ^ 127)
              · rw [if_pos h6]; exact Or.inl rfl
              · rw [if_neg h6]
                exact Or.inr ⟨id, rfl, rfl⟩
            · rw [if_neg h5]; exact Or.inl rfl

/-- Inversion of a successful match: the matched id is the first candidate
accepted by the scan filter, the reported trade fields are the maker's
terms, and the post-state deactivates the order, removes it from the index
and releases its escrow. -/
theorem beforeSwap_matched_inv (e : Env) (s : HookState) (sender : Nat) (key : PoolKey)
    (params : SwapParams) (id mk tin tout tp ma : Nat) (sp un : Int)
    (h : (beforeSwap e s sender key params).2
      = .ok (.matched id mk tin tout tp ma sp un)) :
    ((poLookup s key).take MAX_ITERATIONS).find?
        (fun j => matchOkB (s.orders j) params.zeroForOne
          ((- params.amountSpecified).toNat) e.now) = some id ∧
    matchOkB (s.orders id) params.zeroForOne ((- params.amountSpecified).toNat) e.now = true ∧
    mk = (s.orders id).maker ∧
    tin = (if params.zeroForOne then key.currency0 else key.currency1) ∧
    tout = (if params.zeroForOne then key.currency1 else key.currency0) ∧
    tp = (s.orders id).minAmountOut ∧ ma = (s.orders id).amountIn ∧
    sp = int128OfUInt128 (s.orders id).minAmountOut ∧
    un = - int128OfUInt128 (s.orders id).amountIn ∧
    (- params.amountSpecified).toNat ≤ INT128_MAX ∧
    (s.orders id).amountIn
      ≤ alookup 0 s.custody (if params.zeroForOne then key.currency1 else key.currency0) ∧
    (beforeSwap e s sender key params).1 =
      { s with
          orders := setOrder s.orders id { s.orders id with active := false }
          poolOrders := aset s.poolOrders key (removeOrder (poLookup s key) id)
          custody := aset s.custody (if params.zeroForOne then key.currency1 else key.currency0)
            (alookup 0 s.custody (if params.zeroForOne then key.currency1 else key.currency0)
              - (s.orders id).amountIn) } := by
  unfold beforeSwap at h ⊢
  by_cases h1 : ¬ sender ∈ s.allowedBots
  · rw [if_pos h1] at h; exact absurd h (by simp)
  · rw [if_neg h1] at h ⊢
    by_cases h2 : 0 ≤ params.amountSpecified
    · rw [if_pos h2] at h; exact absurd h (by simp)
    · rw [if_neg h2] at h ⊢
      by_cases h3 : params.amountSpecified = INT256_MIN
      · rw [if_pos h3] at h; exact absurd h (by simp)
      · rw [if_neg h3] at h ⊢
        dsimp only at h ⊢
        by_cases h4 : INT128_MAX < (- params.amountSpecified).toNat
        · rw [if_pos h4] at h; exact absurd h (by simp)
        · rw [if_neg h4] at h ⊢
          cases hf : ((poLookup s key).take MAX_ITERATIONS).find?
              (fun j => matchOkB (s.orders j) params.zeroForOne
                ((- params.amountSpecified).toNat) e.now) with
          | none =>
            rw [hf] at h
            exact absurd h (by simp)
          | some id' =>
            rw [hf] at h
            dsimp only at h ⊢
            by_cases h5 : e.xferOk (if params.zeroForOne then key.currency1 else key.currency0)
                  pmAddr (s.orders id').amountIn = true
                ∧ (s.orders id').amountIn ≤ alookup 0 s.custody
                  (if params.zeroForOne then key.currency1 else key.currency0)
            · rw [if_pos h5] at h ⊢
              by_cases h6 : int128OfUInt128 (s.orders id').amountIn = -(2 ^ 127)
              · rw [if_pos h6] at h; exact absurd h (by simp)
              · rw [if_neg h6] at h ⊢
                simp only [Except.ok.injEq, SwapResult.matched.injEq] at h
                obtain ⟨hid, hmk, htin, htout, htp, hma, hsp, hun⟩ := h
                subst hid
                have hpred := List.find?_some hf
                exact ⟨rfl, hpred, hmk.symm, htin.symm, htout.symm, htp.symm, hma.symm,
                  hsp.symm, hun.symm, le_of_not_lt h4, h5.2, rfl⟩
            · rw [if_neg h5] at h; exact absurd h (by simp)

theorem purgeLoop_succ (e : Env) (key : PoolKey) (maxPurge fuel : Nat) (s : HookState)
    (i purged : Nat) :
    purgeLoop e key maxPurge (fuel + 1) s i purged =
      if i < (poLookup s key).length ∧ purged < maxPurge then
        if (s.orders ((poLookup s key).getD i 0)).active = true
            ∧ e.now > (s.orders ((poLookup s key).getD i 0)).expiry then
          purgeLoop e key maxPurge fuel (purgeStep e key s i) i (purged + 1)
        else purgeLoop e key maxPurge fuel s (i + 1) purged
      else s := rfl

theorem purgeStep_nextOrderId (e : Env) (key : PoolKey) (s : HookState) (i : Nat) :
    (purgeStep e key s i).nextOrderId = s.nextOrderId := rfl

theorem purgeStep_orders (e : Env) (key : PoolKey) (s : HookState) (i : Nat) :
    (purgeStep e key s i).orders
      = setOrder s.orders ((poLookup s key).getD i 0)
        { s.orders ((poLookup s key).getD i 0) with active := false } := rfl

theorem purgeStep_poolOrders (e : Env) (key : PoolKey) (s : HookState) (i : Nat) :
    (purgeStep e key s i).poolOrders = aset s.poolOrders key (swapPop (poLookup s key) i) := rfl

theorem purgeLoop_fields (e : Env) (key : PoolKey) (maxPurge : Nat) :
    ∀ fuel (s : HookState) (i purged : Nat),
    (purgeLoop e key maxPurge fuel s i purged).nextOrderId = s.nextOrderId ∧
    (purgeLoop e key maxPurge fuel s i purged).admin = s.admin ∧
    (purgeLoop e key maxPurge fuel s i purged).pendingAdmin = s.pendingAdmin ∧
    (purgeLoop e key maxPurge fuel s i purged).allowedBots = s.allowedBots := by
  intro fuel
  induction fuel with
  | zero => intro s i purged; exact ⟨rfl, rfl, rfl, rfl⟩
  | succ fuel ih =>
    intro s i purged
    rw [purgeLoop_succ]
    by_cases h1 : i < (poLookup s key).length ∧ purged < maxPurge
    · rw [if_pos h1]
      by_cases h2 : (s.orders ((poLookup s key).getD i 0)).active = true
          ∧ e.now > (s.orders ((poLookup s key).getD i 0)).expiry
      · rw [if_pos h2]
        exact ih (purgeStep e key s i) i (purged + 1)
      · rw [if_neg h2]
        exact ih s (i + 1) purged
    · rw [if_neg h1]
      exact ⟨rfl, rfl, rfl, rfl⟩

/-- Orders are only ever deactivated by the purge loop: any slot is
either untouched or was an active, strictly-expired order now flagged
inactive. -/
theorem purgeLoop_orders_cases (e : Env) (key : PoolKey) (maxPurge : Nat) :
    ∀ fuel (s : HookState) (i purged j : Nat),
    (purgeLoop e key maxPurge fuel s i purged).orders j = s.orders j ∨
    ((s.orders j).active = true ∧ e.now > (s.orders j).expiry ∧
      (purgeLoop e key maxPurge fuel s i purged).orders j
        = { s.orders j with active := false }) := by
  intro fuel
  induction fuel with
  | zero => intro s i purged j; exact Or.inl rfl
  | succ fuel ih =>
    intro s i purged j
    rw [purgeLoop_succ]
    by_cases h1 : i < (poLookup s key).length ∧ purged < maxPurge
    · rw [if_pos h1]
      by_cases h2 : (s.orders ((poLookup s key).getD i 0)).active = true
          ∧ e.now > (s.orders ((poLookup s key).getD i 0)).expiry
      · rw [if_pos h2]
        by_cases hj : j = (poLookup s key).getD i 0
        · rw [← hj] at h2
          have hstep : (purgeStep e key s i).orders j = { s.orders j with active := false } := by
            rw [purgeStep_orders, ← hj]
            simp [setOrder]
          rcases ih (purgeStep e key s i) i (purged + 1) j with h | ⟨ha, -, -⟩
          · rw [h, hstep]
            exact Or.inr ⟨h2.1, h2.2, rfl⟩
          · rw [hstep] at ha
            simp at ha
        · have hstep : (purgeStep e key s i).orders j = s.orders j := by
            rw [purgeStep_orders]
            unfold setOrder
            rw [if_neg hj]
          rcases ih (purgeStep e key s i) i (purged + 1) j with h | ⟨ha, hb, hc⟩
          · rw [h, hstep]
            exact Or.inl rfl
          · rw [hstep] at ha hb hc
            exact Or.inr ⟨ha, hb, hc⟩
      · rw [if_neg h2]
        exact ih s (i + 1) purged j
    · rw [if_neg h1]
      exact Or.inl rfl

theorem poLookup_purgeStep (e : Env) (key : PoolKey) (s : HookState) (i : Nat) :
    poLookup (purgeStep e key s i) key = swapPop (poLookup s key) i := by
  unfold poLookup
  rw [purgeStep_poolOrders]
  exact alookup_aset_self _ _ _ _

theorem poLookup_purgeStep_other (e : Env) (key k' : PoolKey) (s : HookState) (i : Nat)
    (h : k' ≠ key) : poLookup (purgeStep e key s i) k' = poLookup s k' := by
  unfold poLookup
  rw [purgeStep_poolOrders]
  exact alookup_aset_ne _ _ _ _ _ h

/-- Pool-index membership only shrinks during the purge loop. -/
theorem purgeLoop_mem_shrink (e : Env) (key : PoolKey) (maxPurge : Nat) :
    ∀ fuel (s : HookState) (i purged j : Nat),
    j ∈ poLookup (purgeLoop e key maxPurge fuel s i purged) key → j ∈ poLookup s key := by
  intro fuel
  induction fuel with
  | zero => intro s i purged j h; exact h
  | succ fuel ih =>
    intro s i purged j h
    rw [purgeLoop_succ] at h
    by_cases h1 : i < (poLookup s key).length ∧ purged < maxPurge
    · rw [if_pos h1] at h
      by_cases h2 : (s.orders ((poLookup s key).getD i 0)).active = true
          ∧ e.now > (s.orders ((poLookup s key).getD i 0)).expiry
      · rw [if_pos h2] at h
        have hmem := ih (purgeStep e key s i) i (purged + 1) j h
        rw [poLookup_purgeStep] at hmem
        have hperm := swapPop_cons_perm (poLookup s key) i h1.1
        exact hperm.mem_iff.2 (List.mem_cons_of_mem _ hmem)
      · rw [if_neg h2] at h
        exact ih s (i + 1) purged j h
    · rw [if_neg h1] at h
      exact h

theorem purgeLoop_other_pools (e : Env) (key k' : PoolKey) (maxPurge : Nat) (hk : k' ≠ key) :
    ∀ fuel (s : HookState) (i purged : Nat),
    poLookup (purgeLoop e key maxPurge fuel s i purged) k' = poLookup s k' := by
  intro fuel
  induction fuel with
  | zero => intro s i purged; rfl
  | succ fuel ih =>
    intro s i purged
    rw [purgeLoop_succ]
    by_cases h1 : i < (poLookup s key).length ∧ purged < maxPurge
    · rw [if_pos h1]
      by_cases h2 : (s.orders ((poLookup s key).getD i 0)).active = true
          ∧ e.now > (s.orders ((poLookup s key).getD i 0)).expiry
      · rw [if_pos h2, ih, poLookup_purgeStep_other e key k' s i hk]
      · rw [if_neg h2, ih]
    · rw [if_neg h1]

theorem WFp_purgeStep (e : Env) (key : PoolKey) (s : HookState) (i : Nat)
    (hWF : WFp s) (hi : i < (poLookup s key).length) : WFp (purgeStep e key s i) := by
  have hnd := poLookup_nodup s hWF key
  have hperm := swapPop_cons_perm (poLookup s key) i hi
  have hnd' : ((poLookup s key).getD i 0 :: swapPop (poLookup s key) i).Nodup :=
    hperm.nodup hnd
  rw [List.nodup_cons] at hnd'
  refine WFp_deactRemove s (purgeStep e key s i) ((poLookup s key).getD i 0) key
    (swapPop (poLookup s key) i) hWF (purgeStep_poolOrders e key s i)
    (purgeStep_orders e key s i) (purgeStep_nextOrderId e key s i)
    (getD_mem _ i hi) hnd'.2 hnd'.1 (fun j hj => ?_)
  rw [hperm.mem_iff, List.mem_cons]
  constructor
  · intro hx; exact Or.inr hx
  · rintro (hx | hx)
    · exact absurd hx hj
    · exact hx

theorem WFp_purgeLoop (e : Env) (key : PoolKey) (maxPurge : Nat) :
    ∀ fuel (s : HookState) (i purged : Nat), WFp s →
    WFp (purgeLoop e key maxPurge fuel s i purged) := by
  intro fuel
  induction fuel with
  | zero => intro s i purged hWF; exact hWF
  | succ fuel ih =>
    intro s i purged hWF
    rw [purgeLoop_succ]
    by_cases h1 : i < (poLookup s key).length ∧ purged < maxPurge
    · rw [if_pos h1]
      by_cases h2 : (s.orders ((poLookup s key).getD i 0)).active = true
          ∧ e.now > (s.orders ((poLookup s key).getD i 0)).expiry
      · rw [if_pos h2]
        exact ih _ i (purged + 1) (WFp_purgeStep e key s i hWF h1.1)
      · rw [if_neg h2]
        exact ih s (i + 1) purged hWF
    · rw [if_neg h1]
      exact hWF

theorem WFp_postOrder (e : Env) (s : HookState) (sender : Nat) (key : PoolKey)
    (st : Bool) (ai mao dur : Nat) (hWF : WFp s) :
    WFp (postOrder e s sender key st ai mao dur).1 := by
  rcases postOrder_cases e s sender key st ai mao dur with h | ⟨-, -, -, -, -, h⟩
  · rw [h]; exact hWF
  · rw [h]
    unfold WFp
    dsimp only
    obtain ⟨W1, W2, W3⟩ := hWF
    set n := s.nextOrderId with hn
    set newO : Order :=
      { maker := sender, sellToken0 := st, amountIn := ai, minAmountOut := mao,
        expiry := e.now + dur, active := true, poolId := key } with hnewO
    have hidslt : ∀ j ∈ poLookup s key, j < n := by
      intro j hj
      exact (poLookup_props s ⟨W1, W2, W3⟩ key j hj).1
    have hords : ∀ j, j < n → setOrder s.orders n newO j = s.orders j := by
      intro j hj
      simp [setOrder, Nat.ne_of_lt hj]
    have hordn : setOrder s.orders n newO n = newO := by simp [setOrder]
    refine ⟨keysNodup_aset _ _ _ W1, ?_, ?_⟩
    · intro kv hkv
      rcases mem_aset_nodup _ _ _ W1 kv hkv with hkv' | ⟨hkv', hkne⟩
      · subst hkv'
        constructor
        · rw [List.nodup_append]
          refine ⟨poLookup_nodup s ⟨W1, W2, W3⟩ key, List.nodup_singleton _, ?_⟩
          intro a ha ha'
          rw [List.mem_singleton] at ha'
          rw [ha'] at ha
          exact absurd (hidslt n ha) (lt_irrefl n)
        · intro id hid
          rw [List.mem_append, List.mem_singleton] at hid
          rcases hid with hid | hid
          · have hlt := hidslt id hid
            obtain ⟨-, hact, hpool⟩ := poLookup_props s ⟨W1, W2, W3⟩ key id hid
            rw [hords id hlt]
            exact ⟨by omega, hact, hpool⟩
          · subst hid
            rw [hordn]
            exact ⟨by omega, rfl, rfl⟩
      · obtain ⟨hknd, hkprops⟩ := W2 kv hkv'
        refine ⟨hknd, fun id hid => ?_⟩
        obtain ⟨ha, hb, hc⟩ := hkprops id hid
        rw [hords id ha]
        exact ⟨by omega, hb, hc⟩
    · intro id hid hact
      by_cases hidn : id = n
      · rw [hidn, hordn] at hact ⊢
        have hpool' : newO.poolId = key := rfl
        rw [hpool']
        unfold poLookup
        dsimp only
        rw [alookup_aset_self]
        rw [List.mem_append, List.mem_singleton]
        exact Or.inr rfl
      · have hid' : id < n + 1 := hid
        have hlt : id < n := by omega
        rw [hords id hlt] at hact ⊢
        have hmem := W3 id hlt hact
        by_cases hp : (s.orders id).poolId = key
        · rw [hp]
          unfold poLookup
          rw [alookup_aset_self]
          rw [List.mem_append]
          rw [hp] at hmem
          exact Or.inl hmem
        · unfold poLookup
          rw [alookup_aset_ne [] s.poolOrders key _ _ hp]
          exact hmem

theorem WFp_cancelOrder (e : Env) (s : HookState) (sender orderId : Nat) (key : PoolKey)
    (hWF : WFp s) : WFp (cancelOrder e s sender orderId key).1 := by
  rcases cancelOrder_cases e s sender orderId key with h | ⟨hlt, -, -, hact, hkey, h⟩
  · rw [h]; exact hWF
  · have hmem : orderId ∈ poLookup s key := by
      rw [hkey]
      exact hWF.2.2 orderId hlt hact
    obtain ⟨hnd', hnm', hiff', -⟩ :=
      removeOrder_spec (poLookup s key) orderId hmem (poLookup_nodup s hWF key)
    exact WFp_deactRemove s _ orderId key (removeOrder (poLookup s key) orderId) hWF
      (by rw [h]) (by rw [h]) (by rw [h]) hmem hnd' hnm' hiff'

theorem WFp_beforeSwap (e : Env) (s : HookState) (sender : Nat) (key : PoolKey)
    (params : SwapParams) (hWF : WFp s) : WFp (beforeSwap e s sender key params).1 := by
  rcases beforeSwap_cases e s sender key params with h | ⟨id, hf, h⟩
  · rw [h]; exact hWF
  · have hmem : id ∈ poLookup s key :=
      List.mem_of_mem_take (List.mem_of_find?_eq_some hf)
    obtain ⟨hnd', hnm', hiff', -⟩ :=
      removeOrder_spec (poLookup s key) id hmem (poLookup_nodup s hWF key)
    exact WFp_deactRemove s _ id key (removeOrder (poLookup s key) id) hWF
      (by rw [h]) (by rw [h]) (by rw [h]) hmem hnd' hnm' hiff'

theorem WFp_claimRefund (e : Env) (s : HookState) (sender token : Nat) (hWF : WFp s) :
    WFp (claimRefund e s sender token).1 := by
  rcases claimRefund_cases e s sender token with h | ⟨-, h⟩
  · rw [h]; exact hWF
  · rw [h]
    exact WFp_congr s _ rfl rfl rfl hWF

theorem WFp_applyAct (e : Env) (s : HookState) (a : Act) (hWF : WFp s) :
    WFp (applyAct e s a).1 := by
  cases a with
  | post sender key st ai mao dur => exact WFp_postOrder e s sender key st ai mao dur hWF
  | cancel sender orderId key => exact WFp_cancelOrder e s sender orderId key hWF
  | swap sender key params => exact WFp_beforeSwap e s sender key params hWF
  | purge key maxPurge =>
    exact WFp_purgeLoop e key maxPurge (poLookup s key).length s 0 0 hWF
  | claim sender token => exact WFp_claimRefund e s sender token hWF
  | addBot sender bot =>
    simp only [applyAct]
    split
    · exact WFp_congr s _ rfl rfl rfl hWF
    · exact hWF
  | removeBot sender bot =>
    simp only [applyAct]
    split
    · exact WFp_congr s _ rfl rfl rfl hWF
    · exact hWF
  | setAdmin sender newAdmin =>
    simp only [applyAct]
    split
    · split
      · exact hWF
      · exact WFp_congr s _ rfl rfl rfl hWF
    · exact hWF
  | acceptAdmin sender =>
    simp only [applyAct]
    split
    · exact WFp_congr s _ rfl rfl rfl hWF
    · exact hWF

theorem matchOkB_iff (o : Order) (z : Bool) (taker now : Nat) :
    matchOkB o z taker now = true ↔
      (o.active = true ∧ now ≤ o.expiry ∧ o.sellToken0 ≠ z ∧ o.minAmountOut ≤ taker) := by
  unfold matchOkB
  simp only [Bool.and_eq_true, Bool.not_eq_true', decide_eq_false_iff_not, not_lt,
    beq_eq_false_iff_ne, ne_eq]
  tauto

/-- Conservation is preserved by deactivating an active order while
debiting exactly its escrow from custody (cancel, match, successful purge
refund). -/
theorem consvAt_deactCustody (s s' : HookState) (id : Nat)
    (hlt : id < s.nextOrderId) (hact : (s.orders id).active = true)
    (h2 : s'.orders = setOrder s.orders id { s.orders id with active := false })
    (h3 : s'.nextOrderId = s.nextOrderId)
    (h4 : s'.unclaimedBalances = s.unclaimedBalances)
    (h5 : s'.custody = aset s.custody (tokenOf (s.orders id))
        (alookup 0 s.custody (tokenOf (s.orders id)) - (s.orders id).amountIn))
    (hc : Consv s) (t : Nat) : consvAt s' t := by
  have hset := contribSum_set s.orders { s.orders id with active := false }
    s.nextOrderId t id hlt
  have hcontrib0 : contrib { s.orders id with active := false } t = 0 := by
    simp [contrib]
  rw [hcontrib0] at hset
  have hcontrib : contrib (s.orders id) t
      = if tokenOf (s.orders id) = t then (s.orders id).amountIn else 0 := by
    simp [contrib, hact]
  have hce := hc t
  unfold consvAt custodyOf activeEscrow at hce ⊢
  rw [h2, h3, h4, h5]
  by_cases hp : tokenOf (s.orders id) = t
  · subst hp
    rw [alookup_aset_self]
    rw [hcontrib, if_pos rfl] at hset
    omega
  · rw [alookup_aset_ne 0 s.custody (tokenOf (s.orders id)) t _ (fun hx => hp hx.symm)]
    rw [hcontrib, if_neg hp] at hset
    omega

/-- Conservation is preserved by deactivating an active order while
crediting exactly its escrow to the maker's unclaimed balance (failed
purge refund). -/
theorem consvAt_deactUnclaimed (s s' : HookState) (id : Nat)
    (hlt : id < s.nextOrderId) (hact : (s.orders id).active = true)
    (h2 : s'.orders = setOrder s.orders id { s.orders id with active := false })
    (h3 : s'.nextOrderId = s.nextOrderId)
    (h4 : s'.custody = s.custody)
    (h5 : s'.unclaimedBalances = aset s.unclaimedBalances
        ((s.orders id).maker, tokenOf (s.orders id))
        (alookup 0 s.unclaimedBalances ((s.orders id).maker, tokenOf (s.orders id))
          + (s.orders id).amountIn))
    (hc : Consv s) (t : Nat) : consvAt s' t := by
  have hset := contribSum_set s.orders { s.orders id with active := false }
    s.nextOrderId t id hlt
  have hcontrib0 : contrib { s.orders id with active := false } t = 0 := by
    simp [contrib]
  rw [hcontrib0] at hset
  have hcontrib : contrib (s.orders id) t
      = if tokenOf (s.orders id) = t then (s.orders id).amountIn else 0 := by
    simp [contrib, hact]
  have hsum := sumTok_aset_eq s.unclaimedBalances
    ((s.orders id).maker, tokenOf (s.orders id))
    (alookup 0 s.unclaimedBalances ((s.orders id).maker, tokenOf (s.orders id))
      + (s.orders id).amountIn) t
  have hce := hc t
  unfold consvAt custodyOf activeEscrow at hce ⊢
  rw [h2, h3, h4, h5]
  by_cases hp : tokenOf (s.orders id) = t
  · rw [hcontrib, if_pos hp] at hset
    simp only [if_pos hp] at hsum
    omega
  · rw [hcontrib, if_neg hp] at hset
    simp only [if_neg hp] at hsum
    omega

theorem consv_postOrder (e : Env) (s : HookState) (sender : Nat) (key : PoolKey)
    (st : Bool) (ai mao dur : Nat) (hc : Consv s) (t : Nat) :
    consvAt (postOrder e s sender key st ai mao dur).1 t := by
  rcases postOrder_cases e s sender key st ai mao dur with h | ⟨-, -, -, -, -, h⟩
  · rw [h]; exact hc t
  · rw [h]
    have happ := contribSum_append_new s.orders
      { maker := sender, sellToken0 := st, amountIn := ai, minAmountOut := mao,
        expiry := e.now + dur, active := true, poolId := key } s.nextOrderId t
    have hcontrib : contrib
        { maker := sender, sellToken0 := st, amountIn := ai, minAmountOut := mao,
          expiry := e.now + dur, active := true, poolId := key } t
        = if (if st then key.currency0 else key.currency1) = t then ai else 0 := by
      simp [contrib, tokenOf]
    have hce := hc t
    unfold consvAt custodyOf activeEscrow at hce ⊢
    dsimp only
    rw [happ, hcontrib]
    by_cases hp : (if st then key.currency0 else key.currency1) = t
    · subst hp
      rw [alookup_aset_self, if_pos rfl]
      omega
    · rw [alookup_aset_ne 0 s.custody _ t _ (fun hx => hp hx.symm), if_neg hp]
      omega

theorem consv_cancelOrder (e : Env) (s : HookState) (sender orderId : Nat) (key : PoolKey)
    (hc : Consv s) (t : Nat) : consvAt (cancelOrder e s sender orderId key).1 t := by
  rcases cancelOrder_cases e s sender orderId key with h | ⟨hlt, -, -, hact, hkey, h⟩
  · rw [h]; exact hc t
  · have htok : (if (s.orders orderId).sellToken0 then key.currency0 else key.currency1)
        = tokenOf (s.orders orderId) := by
      rw [hkey]
      rfl
    refine consvAt_deactCustody s _ orderId hlt hact ?_ ?_ ?_ ?_ hc t
    · rw [h]
    · rw [h]
    · rw [h]
    · rw [h]
      dsimp only
      rw [htok]

theorem consv_beforeSwap (e : Env) (s : HookState) (sender : Nat) (key : PoolKey)
    (params : SwapParams) (hWF : WFp s) (hc : Consv s) (t : Nat) :
    consvAt (beforeSwap e s sender key params).1 t := by
  rcases beforeSwap_cases e s sender key params with h | ⟨id, hf, h⟩
  · rw [h]; exact hc t
  · have hmem : id ∈ poLookup s key :=
      List.mem_of_mem_take (List.mem_of_find?_eq_some hf)
    obtain ⟨hlt, hact, hpool⟩ := poLookup_props s hWF key id hmem
    have hpred := List.find?_some hf
    rw [matchOkB_iff] at hpred
    have htok : (if params.zeroForOne then key.currency1 else key.currency0)
        = tokenOf (s.orders id) := by
      unfold tokenOf
      rw [hpool]
      rcases hpred with ⟨-, -, hside, -⟩
      cases hz : params.zeroForOne with
      | true =>
        rw [hz] at hside
        have hsf : (s.orders id).sellToken0 = false := by
          cases hsell : (s.orders id).sellToken0 with
          | true => exact absurd (by rw [hsell]) hside
          | false => rfl
        rw [hsf]
        rfl
      | false =>
        rw [hz] at hside
        have hst : (s.orders id).sellToken0 = true := by
          cases hsell : (s.orders id).sellToken0 with
          | true => rfl
          | false => exact absurd (by rw [hsell]) hside
        rw [hst]
        rfl
    refine consvAt_deactCustody s _ id hlt hact ?_ ?_ ?_ ?_ hc t
    · rw [h]
    · rw [h]
    · rw [h]
    · rw [h]
      dsimp only
      rw [htok]

theorem consv_claimRefund (e : Env) (s : HookState) (sender token : Nat)
    (hc : Consv s) (t : Nat) : consvAt (claimRefund e s sender token).1 t := by
  rcases claimRefund_cases e s sender token with h | ⟨-, h⟩
  · rw [h]; exact hc t
  · rw [h]
    have hce := hc t
    unfold consvAt custodyOf activeEscrow at hce ⊢
    dsimp only
    by_cases hp : token = t
    · subst hp
      rw [alookup_aset_self]
      have hsum2 : sumTok (aset s.unclaimedBalances (sender, token) 0) token
          + alookup 0 s.unclaimedBalances (sender, token)
          = sumTok s.unclaimedBalances token := by
        have h0 := sumTok_aset_eq s.unclaimedBalances (sender, token) 0 token
        simpa using h0
      omega
    · rw [alookup_aset_ne 0 s.custody token t _ (fun hx => hp hx.symm)]
      have hsum2 : sumTok (aset s.unclaimedBalances (sender, token) 0) t
          = sumTok s.unclaimedBalances t := by
        have h0 := sumTok_aset_eq s.unclaimedBalances (sender, token) 0 t
        simpa [hp] using h0
      omega

theorem consv_purgeLoop (e : Env) (key : PoolKey) (maxPurge : Nat) :
    ∀ fuel (s : HookState) (i purged : Nat), WFp s → Consv s →
    Consv (purgeLoop e key maxPurge fuel s i purged) := by
  intro fuel
  induction fuel with
  | zero => intro s i purged hWF hc; exact hc
  | succ fuel ih =>
    intro s i purged hWF hc
    rw [purgeLoop_succ]
    by_cases h1 : i < (poLookup s key).length ∧ purged < maxPurge
    · rw [if_pos h1]
      by_cases h2 : (s.orders ((poLookup s key).getD i 0)).active = true
          ∧ e.now > (s.orders ((poLookup s key).getD i 0)).expiry
      · rw [if_pos h2]
        refine ih _ i (purged + 1) (WFp_purgeStep e key s i hWF h1.1) ?_
        obtain ⟨hlt, -, hpool⟩ :=
          poLookup_props s hWF key _ (getD_mem (poLookup s key) i h1.1)
        have htok : (if (s.orders ((poLookup s key).getD i 0)).sellToken0
              then key.currency0 else key.currency1)
            = tokenOf (s.orders ((poLookup s key).getD i 0)) := by
          unfold tokenOf
          rw [hpool]
        intro t
        by_cases hok : (e.xferOk
              (if (s.orders ((poLookup s key).getD i 0)).sellToken0
                then key.currency0 else key.currency1)
              (s.orders ((poLookup s key).getD i 0)).maker
              (s.orders ((poLookup s key).getD i 0)).amountIn
            && decide ((s.orders ((poLookup s key).getD i 0)).amountIn
              ≤ alookup 0 s.custody
                (if (s.orders ((poLookup s key).getD i 0)).sellToken0
                  then key.currency0 else key.currency1))) = true
        · refine consvAt_deactCustody s _ ((poLookup s key).getD i 0) hlt h2.1 ?_ ?_ ?_ ?_ hc t
          · exact purgeStep_orders e key s i
          · exact purgeStep_nextOrderId e key s i
          · show (if (e.xferOk _ _ _ && _) then s.unclaimedBalances else _) = s.unclaimedBalances
            rw [if_pos hok]
          · show (if (e.xferOk _ _ _ && _) then aset s.custody _ _ else s.custody) = _
            rw [if_pos hok, htok]
        · refine consvAt_deactUnclaimed s _ ((poLookup s key).getD i 0) hlt h2.1 ?_ ?_ ?_ ?_ hc t
          · exact purgeStep_orders e key s i
          · exact purgeStep_nextOrderId e key s i
          · show (if (e.xferOk _ _ _ && _) then aset s.custody _ _ else s.custody) = s.custody
            rw [if_neg hok]
          · show (if (e.xferOk _ _ _ && _) then s.unclaimedBalances else _) = _
            rw [if_neg hok, htok]
      · rw [if_neg h2]
        exact ih s (i + 1) purged hWF hc
    · rw [if_neg h1]
      exact hc

theorem consv_applyAct (e : Env) (s : HookState) (a : Act) (hWF : WFp s) (hc : Consv s) :
    Consv (applyAct e s a).1 := by
  cases a with
  | post sender key st ai mao dur => exact fun t => consv_postOrder e s sender key st ai mao dur hc t
  | cancel sender orderId key => exact fun t => consv_cancelOrder e s sender orderId key hc t
  | swap sender key params => exact fun t => consv_beforeSwap e s sender key params hWF hc t
  | purge key maxPurge =>
    exact consv_purgeLoop e key maxPurge (poLookup s key).length s 0 0 hWF hc
  | claim sender token => exact fun t => consv_claimRefund e s sender token hc t
  | addBot sender bot =>
    simp only [applyAct]
    split
    · exact hc
    · exact hc
  | removeBot sender bot =>
    simp only [applyAct]
    split
    · exact hc
    · exact hc
  | setAdmin sender newAdmin =>
    simp only [applyAct]
    split
    · split
      · exact hc
      · exact hc
    · exact hc
  | acceptAdmin sender =>
    simp only [applyAct]
    split
    · exact hc
    · exact hc

theorem expiredActiveB_iff (o : Order) (now : Nat) :
    expiredActiveB o now = true ↔ (o.active = true ∧ now > o.expiry) := by
  unfold expiredActiveB
  simp [Bool.and_eq_true, decide_eq_true_eq]

theorem drop_cons_getD (l : List Nat) (i : Nat) (hi : i < l.length) :
    l.drop i = l.getD i 0 :: l.drop (i + 1) := by
  rw [List.drop_eq_getElem_cons hi, List.getD_eq_getElem l 0 hi]

theorem getD_not_mem_drop_succ (l : List Nat) (h : l.Nodup) (i : Nat) (hi : i < l.length) :
    l.getD i 0 ∉ l.drop (i + 1) := by
  have hnd : (l.drop i).Nodup := (List.drop_sublist i l).nodup h
  rw [drop_cons_getD l i hi] at hnd
  exact (List.nodup_cons.1 hnd).1

theorem take_succ_getD (l : List Nat) (i : Nat) (hi : i < l.length) :
    l.take (i + 1) = l.take i ++ [l.getD i 0] := by
  rw [List.take_succ, List.getElem?_eq_getElem hi, List.getD_eq_getElem l 0 hi]
  rfl

/-- The number of index entries removed by the purge loop is exactly the
number of active strictly-expired entries in the unexamined suffix, capped
by the remaining purge budget. -/
theorem purgeLoop_count (e : Env) (key : PoolKey) (maxPurge : Nat) :
    ∀ fuel (s : HookState) (i purged : Nat),
    (poLookup s key).length ≤ fuel + i →
    (poLookup s key).Nodup →
    (∀ j ∈ (poLookup s key).take i, expiredActiveB (s.orders j) e.now = false) →
    (poLookup (purgeLoop e key maxPurge fuel s i purged) key).length
      + min (((poLookup s key).drop i).countP (fun j => expiredActiveB (s.orders j) e.now))
          (maxPurge - purged)
      = (poLookup s key).length := by
  intro fuel
  induction fuel with
  | zero =>
    intro s i purged hfuel hnd hpre
    rw [List.drop_eq_nil_of_le (by omega)]
    simp [purgeLoop]
  | succ fuel ih =>
    intro s i purged hfuel hnd hpre
    rw [purgeLoop_succ]
    by_cases h1 : i < (poLookup s key).length ∧ purged < maxPurge
    · rw [if_pos h1]
      have hdrop := drop_cons_getD (poLookup s key) i h1.1
      by_cases h2 : (s.orders ((poLookup s key).getD i 0)).active = true
          ∧ e.now > (s.orders ((poLookup s key).getD i 0)).expiry
      · rw [if_pos h2]
        have hperm := swapPop_cons_perm (poLookup s key) i h1.1
        have hnd1 : ((poLookup s key).getD i 0 :: swapPop (poLookup s key) i).Nodup :=
          hperm.nodup hnd
        rw [List.nodup_cons] at hnd1
        have hlen1 := swapPop_length (poLookup s key) i h1.1
        have hids1 : poLookup (purgeStep e key s i) key = swapPop (poLookup s key) i :=
          poLookup_purgeStep e key s i
        have hne_id : ∀ j, j ≠ (poLookup s key).getD i 0 →
            (purgeStep e key s i).orders j = s.orders j := by
          intro j hj
          rw [purgeStep_orders]
          unfold setOrder
          rw [if_neg hj]
        have hfuel1 : (poLookup (purgeStep e key s i) key).length ≤ fuel + i := by
          rw [hids1]; omega
        have hnd1' : (poLookup (purgeStep e key s i) key).Nodup := by
          rw [hids1]; exact hnd1.2
        have hpre1 : ∀ j ∈ (poLookup (purgeStep e key s i) key).take i,
            expiredActiveB ((purgeStep e key s i).orders j) e.now = false := by
          intro j hj
          rw [hids1, swapPop_take _ _ h1.1] at hj
          have hjne : j ≠ (poLookup s key).getD i 0 := by
            intro hc
            exact getD_not_mem_take (poLookup s key) i h1.1 hnd (hc ▸ hj)
          rw [hne_id j hjne]
          exact hpre j hj
        have hrec := ih (purgeStep e key s i) i (purged + 1) hfuel1 hnd1' hpre1
        rw [hids1] at hrec
        have hcongr : ((swapPop (poLookup s key) i).drop i).countP
            (fun j => expiredActiveB ((purgeStep e key s i).orders j) e.now)
            = ((poLookup s key).drop (i + 1)).countP
              (fun j => expiredActiveB (s.orders j) e.now) := by
          rw [(swapPop_drop_perm (poLookup s key) i h1.1).countP_eq]
          refine List.countP_congr (fun x hx => ?_)
          rw [hne_id x (fun hc =>
            getD_not_mem_drop_succ (poLookup s key) hnd i h1.1 (hc ▸ hx))]
        rw [hcongr] at hrec
        have hcnt : ((poLookup s key).drop i).countP
            (fun j => expiredActiveB (s.orders j) e.now)
            = ((poLookup s key).drop (i + 1)).countP
              (fun j => expiredActiveB (s.orders j) e.now) + 1 := by
          rw [hdrop, List.countP_cons]
          rw [if_pos ((expiredActiveB_iff _ _).2 h2)]
        rw [hcnt]
        omega
      · rw [if_neg h2]
        have hpfalse : expiredActiveB (s.orders ((poLookup s key).getD i 0)) e.now = false := by
          rw [Bool.eq_false_iff]
          intro hc
          exact h2 ((expiredActiveB_iff _ _).1 hc)
        have hpre1 : ∀ j ∈ (poLookup s key).take (i + 1),
            expiredActiveB (s.orders j) e.now = false := by
          intro j hj
          rw [take_succ_getD _ _ h1.1, List.mem_append, List.mem_singleton] at hj
          rcases hj with hj | hj
          · exact hpre j hj
          · rw [hj]; exact hpfalse
        have hrec := ih s (i + 1) purged (by omega) hnd hpre1
        have hcnt : ((poLookup s key).drop i).countP
            (fun j => expiredActiveB (s.orders j) e.now)
            = ((poLookup s key).drop (i + 1)).countP
              (fun j => expiredActiveB (s.orders j) e.now) := by
          rw [hdrop, List.countP_cons, if_neg (by rw [hpfalse]; exact Bool.false_ne_true)]
          omega
        rw [hcnt]
        omega
    · rw [if_neg h1]
      push_neg at h1
      by_cases hi : i < (poLookup s key).length
      · have hp : maxPurge ≤ purged := h1 hi
        have : maxPurge - purged = 0 := by omega
        rw [this]
        omega
      · rw [List.drop_eq_nil_of_le (by omega)]
        simp

/-- Entries that are not both active and strictly expired survive the
purge loop untouched: their order data is unchanged and they remain in
the market's index. -/
theorem purgeLoop_keep (e : Env) (key : PoolKey) (maxPurge : Nat) :
    ∀ fuel (s : HookState) (i purged : Nat),
    (poLookup s key).Nodup →
    ∀ j ∈ poLookup s key, expiredActiveB (s.orders j) e.now = false →
    (purgeLoop e key maxPurge fuel s i purged).orders j = s.orders j ∧
    j ∈ poLookup (purgeLoop e key maxPurge fuel s i purged) key := by
  intro fuel
  induction fuel with
  | zero => intro s i purged hnd j hj hp; exact ⟨rfl, hj⟩
  | succ fuel ih =>
    intro s i purged hnd j hj hp
    rw [purgeLoop_succ]
    by_cases h1 : i < (poLookup s key).length ∧ purged < maxPurge
    · rw [if_pos h1]
      by_cases h2 : (s.orders ((poLookup s key).getD i 0)).active = true
          ∧ e.now > (s.orders ((poLookup s key).getD i 0)).expiry
      · rw [if_pos h2]
        have hjne : j ≠ (poLookup s key).getD i 0 := by
          intro hc
          rw [hc] at hp
          rw [(expiredActiveB_iff _ _).2 h2] at hp
          cases hp
        have hperm := swapPop_cons_perm (poLookup s key) i h1.1
        have hnd1 : ((poLookup s key).getD i 0 :: swapPop (poLookup s key) i).Nodup :=
          hperm.nodup hnd
        rw [List.nodup_cons] at hnd1
        have hids1 : poLookup (purgeStep e key s i) key = swapPop (poLookup s key) i :=
          poLookup_purgeStep e key s i
        have hordj : (purgeStep e key s i).orders j = s.orders j := by
          rw [purgeStep_orders]
          unfold setOrder
          rw [if_neg hjne]
        have hj1 : j ∈ poLookup (purgeStep e key s i) key := by
          rw [hids1]
          have := hperm.mem_iff.1 hj
          rw [List.mem_cons] at this
          rcases this with hx | hx
          · exact absurd hx hjne
          · exact hx
        have hp1 : expiredActiveB ((purgeStep e key s i).orders j) e.now = false := by
          rw [hordj]; exact hp
        obtain ⟨ha, hb⟩ := ih (purgeStep e key s i) i (purged + 1)
          (by rw [hids1]; exact hnd1.2) j hj1 hp1
        rw [hordj] at ha
        exact ⟨ha, hb⟩
      · rw [if_neg h2]
        exact ih s (i + 1) purged hnd j hj hp
    · rw [if_neg h1]
      exact ⟨rfl, hj⟩

/-- When the purge budget covers all expired entries of the unexamined
suffix, every such entry is deactivated and removed from the index. -/
theorem purgeLoop_purge_all (e : Env) (key : PoolKey) (maxPurge : Nat) :
    ∀ fuel (s : HookState) (i purged : Nat),
    (poLookup s key).length ≤ fuel + i →
    (poLookup s key).Nodup →
    ((poLookup s key).drop i).countP (fun j => expiredActiveB (s.orders j) e.now)
      ≤ maxPurge - purged →
    ∀ j ∈ (poLookup s key).drop i, expiredActiveB (s.orders j) e.now = true →
    (purgeLoop e key maxPurge fuel s i purged).orders j
      = { s.orders j with active := false } ∧
    j ∉ poLookup (purgeLoop e key maxPurge fuel s i purged) key := by
  intro fuel
  induction fuel with
  | zero =>
    intro s i purged hfuel hnd hcnt j hj hp
    rw [List.drop_eq_nil_of_le (by omega)] at hj
    cases hj
  | succ fuel ih =>
    intro s i purged hfuel hnd hcnt j hj hp
    rw [purgeLoop_succ]
    by_cases h1 : i < (poLookup s key).length ∧ purged < maxPurge
    · rw [if_pos h1]
      have hdrop := drop_cons_getD (poLookup s key) i h1.1
      by_cases h2 : (s.orders ((poLookup s key).getD i 0)).active = true
          ∧ e.now > (s.orders ((poLookup s key).getD i 0)).expiry
      · rw [if_pos h2]
        have hperm := swapPop_cons_perm (poLookup s key) i h1.1
        have hnd1 : ((poLookup s key).getD i 0 :: swapPop (poLookup s key) i).Nodup :=
          hperm.nodup hnd
        rw [List.nodup_cons] at hnd1
        have hids1 : poLookup (purgeStep e key s i) key = swapPop (poLookup s key) i :=
          poLookup_purgeStep e key s i
        have hlen1 := swapPop_length (poLookup s key) i h1.1
        have hne_id : ∀ x, x ≠ (poLookup s key).getD i 0 →
            (purgeStep e key s i).orders x = s.orders x := by
          intro x hx
          rw [purgeStep_orders]
          unfold setOrder
          rw [if_neg hx]
        by_cases hjid : j = (poLookup s key).getD i 0
        · have hordid : (purgeStep e key s i).orders j
              = { s.orders j with active := false } := by
            rw [purgeStep_orders, ← hjid]
            simp [setOrder]
          constructor
          · rcases purgeLoop_orders_cases e key maxPurge fuel (purgeStep e key s i) i
                (purged + 1) j with hcase | ⟨hact1, -, -⟩
            · rw [hcase, hordid]
            · rw [hordid] at hact1
              simp at hact1
          · intro hcmem
            have hj1 := purgeLoop_mem_shrink e key maxPurge fuel
              (purgeStep e key s i) i (purged + 1) j hcmem
            rw [hids1] at hj1
            rw [hjid] at hj1
            exact hnd1.1 hj1
        · have hjdrop : j ∈ (poLookup s key).drop (i + 1) := by
            rw [hdrop, List.mem_cons] at hj
            rcases hj with hx | hx
            · exact absurd hx hjid
            · exact hx
          have hj1 : j ∈ (poLookup (purgeStep e key s i) key).drop i := by
            rw [hids1]
            exact (swapPop_drop_perm (poLookup s key) i h1.1).mem_iff.2 hjdrop
          have hcongr : ((poLookup (purgeStep e key s i) key).drop i).countP
              (fun x => expiredActiveB ((purgeStep e key s i).orders x) e.now)
              = ((poLookup s key).drop (i + 1)).countP
                (fun x => expiredActiveB (s.orders x) e.now) := by
            rw [hids1, (swapPop_drop_perm (poLookup s key) i h1.1).countP_eq]
            refine List.countP_congr (fun x hx => ?_)
            rw [hne_id x (fun hc =>
              getD_not_mem_drop_succ (poLookup s key) hnd i h1.1 (hc ▸ hx))]
          have hcnt' : ((poLookup s key).drop i).countP
              (fun x => expiredActiveB (s.orders x) e.now)
              = ((poLookup s key).drop (i + 1)).countP
                (fun x => expiredActiveB (s.orders x) e.now) + 1 := by
            rw [hdrop, List.countP_cons, if_pos ((expiredActiveB_iff _ _).2 h2)]
          obtain ⟨ha, hb⟩ := ih (purgeStep e key s i) i (purged + 1)
            (by rw [hids1]; omega) (by rw [hids1]; exact hnd1.2)
            (by rw [hcongr]; omega) j hj1
            (by rw [hne_id j hjid]; exact hp)
          rw [hne_id j hjid] at ha
          exact ⟨ha, hb⟩
      · rw [if_neg h2]
        have hpfalse : expiredActiveB (s.orders ((poLookup s key).getD i 0)) e.now = false := by
          rw [Bool.eq_false_iff]
          intro hc
          exact h2 ((expiredActiveB_iff _ _).1 hc)
        have hjne : j ≠ (poLookup s key).getD i 0 := by
          intro hc
          rw [hc, hpfalse] at hp
          cases hp
        have hjdrop : j ∈ (poLookup s key).drop (i + 1) := by
          rw [hdrop, List.mem_cons] at hj
          rcases hj with hx | hx
          · exact absurd hx hjne
          · exact hx
        have hcnt' : ((poLookup s key).drop i).countP
            (fun x => expiredActiveB (s.orders x) e.now)
            = ((poLookup s key).drop (i + 1)).countP
              (fun x => expiredActiveB (s.orders x) e.now) := by
          rw [hdrop, List.countP_cons, if_neg (by rw [hpfalse]; exact Bool.false_ne_true)]
          omega
        exact ih s (i + 1) purged (by omega) hnd (by omega) j hjdrop hp
    · rw [if_neg h1]
      push_neg at h1
      by_cases hi : i < (poLookup s key).length
      · have hple : maxPurge ≤ purged := h1 hi
        have hz : ((poLookup s key).drop i).countP
            (fun x => expiredActiveB (s.orders x) e.now) = 0 := by omega
        rw [List.countP_eq_zero] at hz
        exact absurd hp (hz j hj)
      · rw [List.drop_eq_nil_of_le (by omega)] at hj
        cases hj

/-- No operation ever reactivates an order: an existing inactive order
stays inactive across any single invocation. -/
theorem applyAct_inactive_preserved (e : Env) (s : HookState) (a : Act) (id : Nat)
    (hlt : id < s.nextOrderId) (hina : (s.orders id).active = false) :
    id < (applyAct e s a).1.nextOrderId ∧ ((applyAct e s a).1.orders id).active = false := by
  cases a with
  | post sender key st ai mao dur =>
    show id < (postOrder e s sender key st ai mao dur).1.nextOrderId
      ∧ ((postOrder e s sender key st ai mao dur).1.orders id).active = false
    rcases postOrder_cases e s sender key st ai mao dur with h | ⟨-, -, -, -, -, h⟩
    · rw [h]; exact ⟨hlt, hina⟩
    · rw [h]
      refine ⟨by dsimp only; omega, ?_⟩
      dsimp only
      unfold setOrder
      rw [if_neg (by omega)]
      exact hina
  | cancel sender orderId key =>
    show id < (cancelOrder e s sender orderId key).1.nextOrderId
      ∧ ((cancelOrder e s sender orderId key).1.orders id).active = false
    rcases cancelOrder_cases e s sender orderId key with h | ⟨-, -, -, -, -, h⟩
    · rw [h]; exact ⟨hlt, hina⟩
    · rw [h]
      refine ⟨hlt, ?_⟩
      dsimp only
      unfold setOrder
      by_cases hj : id = orderId
      · rw [if_pos hj]
      · rw [if_neg hj]
        exact hina
  | swap sender key params =>
    show id < (beforeSwap e s sender key params).1.nextOrderId
      ∧ ((beforeSwap e s sender key params).1.orders id).active = false
    rcases beforeSwap_cases e s sender key params with h | ⟨mid, -, h⟩
    · rw [h]; exact ⟨hlt, hina⟩
    · rw [h]
      refine ⟨hlt, ?_⟩
      dsimp only
      unfold setOrder
      by_cases hj : id = mid
      · rw [if_pos hj]
      · rw [if_neg hj]
        exact hina
  | purge key maxPurge =>
    show id < (purgeExpiredOrders e s key maxPurge).nextOrderId
      ∧ ((purgeExpiredOrders e s key maxPurge).orders id).active = false
    unfold purgeExpiredOrders
    constructor
    · rw [(purgeLoop_fields e key maxPurge _ s 0 0).1]
      exact hlt
    · rcases purgeLoop_orders_cases e key maxPurge (poLookup s key).length s 0 0 id
        with h | ⟨-, -, h⟩
      · rw [h]; exact hina
      · rw [h]
  | claim sender token =>
    show id < (claimRefund e s sender token).1.nextOrderId
      ∧ ((claimRefund e s sender token).1.orders id).active = false
    rcases claimRefund_cases e s sender token with h | ⟨-, h⟩
    · rw [h]; exact ⟨hlt, hina⟩
    · rw [h]; exact ⟨hlt, hina⟩
  | addBot sender bot =>
    simp only [applyAct]
    split
    · exact ⟨hlt, hina⟩
    · exact ⟨hlt, hina⟩
  | removeBot sender bot =>
    simp only [applyAct]
    split
    · exact ⟨hlt, hina⟩
    · exact ⟨hlt, hina⟩
  | setAdmin sender newAdmin =>
    simp only [applyAct]
    split
    · split
      · exact ⟨hlt, hina⟩
      · exact ⟨hlt, hina⟩
    · exact ⟨hlt, hina⟩
  | acceptAdmin sender =>
    simp only [applyAct]
    split
    · exact ⟨hlt, hina⟩
    · exact ⟨hlt, hina⟩

/-- Any action reported as matching order id found it active. -/
theorem matchedOf_requires_active (e : Env) (s : HookState) (a : Act) (id : Nat)
    (h : matchedOf (applyAct e s a).2 = some id) : (s.orders id).active = true := by
  cases a with
  | swap sender key params =>
    have hr : (applyAct e s (Act.swap sender key params)).2
        = (beforeSwap e s sender key params).2.map Obs.swapped := rfl
    rw [hr] at h
    cases hres : (beforeSwap e s sender key params).2 with
    | error err => rw [hres] at h; cases h
    | ok sr =>
      rw [hres] at h
      cases sr with
      | noMatch => cases h
      | matched mid mk tin tout tp ma sp un =>
        simp only [Except.map, matchedOf, Option.some.injEq] at h
        subst h
        have hinv := beforeSwap_matched_inv e s sender key params mid mk tin tout tp ma sp un hres
        exact ((matchOkB_iff _ _ _ _).1 hinv.2.1).1
  | post sender key st ai mao dur =>
    have hr : (applyAct e s (Act.post sender key st ai mao dur)).2
        = (postOrder e s sender key st ai mao dur).2.map Obs.posted := rfl
    rw [hr] at h
    cases hres : (postOrder e s sender key st ai mao dur).2 with
    | error err => rw [hres] at h; cases h
    | ok v => rw [hres] at h; cases h
  | cancel sender orderId key =>
    have hr : (applyAct e s (Act.cancel sender orderId key)).2
        = (cancelOrder e s sender orderId key).2.map (fun _ => Obs.done) := rfl
    rw [hr] at h
    cases hres : (cancelOrder e s sender orderId key).2 with
    | error err => rw [hres] at h; cases h
    | ok v => rw [hres] at h; cases h
  | purge key maxPurge => cases h
  | claim sender token =>
    have hr : (applyAct e s (Act.claim sender token)).2
        = (claimRefund e s sender token).2.map Obs.claimed := rfl
    rw [hr] at h
    cases hres : (claimRefund e s sender token).2 with
    | error err => rw [hres] at h; cases h
    | ok v => rw [hres] at h; cases h
  | addBot sender bot =>
    simp only [applyAct] at h
    split at h
    · cases h
    · cases h
  | removeBot sender bot =>
    simp only [applyAct] at h
    split at h
    · cases h
    · cases h
  | setAdmin sender newAdmin =>
    simp only [applyAct] at h
    split at h
    · split at h
      · cases h
      · cases h
    · cases h
  | acceptAdmin sender =>
    simp only [applyAct] at h
    split at h
    · cases h
    · cases h

/-- Once an existing order is inactive, no later invocation in any trace
ever reports it as a match again. -/
theorem matchedIds_no_reuse :
    ∀ (tr : List (Env × Act)) (s : HookState) (id : Nat),
    id < s.nextOrderId → (s.orders id).active = false → id ∉ matchedIds s tr := by
  intro tr
  induction tr with
  | nil => intro s id hlt hina h; cases h
  | cons ea rest ih =>
    intro s id hlt hina h
    unfold matchedIds at h
    rw [List.mem_append] at h
    rcases h with h | h
    · cases hm : matchedOf (applyAct ea.1 s ea.2).2 with
      | none => rw [hm] at h; cases h
      | some mid =>
        rw [hm] at h
        rw [List.mem_singleton] at h
        subst h
        have := matchedOf_requires_active ea.1 s ea.2 id hm
        rw [hina] at this
        cases this
    · obtain ⟨hlt', hina'⟩ := applyAct_inactive_preserved ea.1 s ea.2 id hlt hina
      exact ih (applyAct ea.1 s ea.2).1 id hlt' hina' h

theorem exState_consv : Consv exState := by
  intro t
  show custodyOf exState t = activeEscrow exState t + sumTok exState.unclaimedBalances t
  by_cases h : (10 : Nat) = t
  · subst h
    rfl
  · unfold custodyOf activeEscrow sumTok exState exOrder exKey contrib tokenOf
    simp [alookup, h, List.range_succ]

/-- Claim C5: cross-market isolation.  Cancelling an existing active order
through a market context different from the order's stored poolId reverts
with PoolMismatch and leaves the state completely unchanged (the returned
state is the input state: active flag, pool indexes and custody balances
are untouched). -/
theorem C5_cross_market_cancel_rejected (e : Env) (s : HookState) (sender orderId : Nat)
    (key : PoolKey)
    (hex : orderId < s.nextOrderId) (hmk : (s.orders orderId).maker ≠ 0)
    (hact : (s.orders orderId).active = true)
    (hsender : sender = (s.orders orderId).maker)
    (hkey : key ≠ (s.orders orderId).poolId) :
    cancelOrder e s sender orderId key = (s, .error .PoolMismatch) := by
  unfold cancelOrder
  rw [if_neg (by omega), if_neg hmk, if_neg (fun hc => hc hsender),
    if_neg (fun hc => hc hact), if_pos hkey]

/-- Witness for C5 on the example state: the maker cancelling order 0
through the wrong market (same assets, different fee tier) is rejected. -/
theorem C5_cross_market_cancel_rejected_witness :
    cancelOrder exEnv exState 5 0 exKey2 = (exState, .error .PoolMismatch) :=
  C5_cross_market_cancel_rejected exEnv exState 5 0 exKey2 (by decide) (by decide)
    (by decide) (by decide) (by decide)

/-- Claim C8: expiry monotonicity.  Whenever beforeSwap selects an order
as the match, that order's expiry is not strictly in the past: an order
with expiry < now is never selected, regardless of its scan position. -/
theorem C8_expired_never_matched (e : Env) (s : HookState) (sender : Nat) (key : PoolKey)
    (params : SwapParams) (id mk tin tout tp ma : Nat) (sp un : Int)
    (hm : (beforeSwap e s sender key params).2 = .ok (.matched id mk tin tout tp ma sp un)) :
    ¬ (s.orders id).expiry < e.now := by
  obtain ⟨-, hpred, -⟩ := beforeSwap_matched_inv e s sender key params id mk tin tout tp ma
    sp un hm
  obtain ⟨-, hle, -, -⟩ := (matchOkB_iff _ _ _ _).1 hpred
  omega

/-- Witness for C8 on the example state: the matched order 0 is unexpired
at the match timestamp. -/
theorem C8_expired_never_matched_witness :
    ¬ ((exState.orders 0).expiry < exEnv.now) :=
  C8_expired_never_matched exEnv exState 6 exKey ⟨false, -100⟩ 0 5 11 10 95 100 95 (-100)
    (by set_option maxRecDepth 4000 in rfl)

/-- Claim C9: fall-through zero effect.  If the swap initiator is not
whitelisted, or the swap is not exact-input (amountSpecified is
non-negative), beforeSwap returns the untouched state together with the
no-match result (modelling the ZERO_DELTA return): no order is
deactivated, no index entry removed, no transfer made. -/
theorem C9_fallthrough_zero_effect (e : Env) (s : HookState) (sender : Nat) (key : PoolKey)
    (params : SwapParams)
    (h : sender ∉ s.allowedBots ∨ 0 ≤ params.amountSpecified) :
    beforeSwap e s sender key params = (s, .ok .noMatch) := by
  unfold beforeSwap
  rcases h with h | h
  · rw [if_pos h]
  · by_cases h1 : ¬ sender ∈ s.allowedBots
    · rw [if_pos h1]
    · rw [if_neg h1, if_pos h]

/-- Witness for C9: a non-whitelisted sender falls through on the example
state. -/
theorem C9_fallthrough_zero_effect_witness :
    beforeSwap exEnv exState 7 exKey ⟨false, -100⟩ = (exState, .ok .noMatch) :=
  C9_fallthrough_zero_effect exEnv exState 7 exKey ⟨false, -100⟩ (by decide)

/-- Claim C4: refund idempotence.  If a claimRefund call succeeds, an
immediately following claimRefund for the same caller and asset (with no
intervening failed push) reverts with InvalidAmounts and changes no state:
the unclaimed balance was zeroed by the first call. -/
theorem C4_refund_idempotent (e e2 : Env) (s s1 : HookState) (sender token amt : Nat)
    (h : claimRefund e s sender token = (s1, .ok amt)) :
    claimRefund e2 s1 sender token = (s1, .error .InvalidAmounts) := by
  unfold claimRefund at h
  by_cases h1 : alookup 0 s.unclaimedBalances (sender, token) = 0
  · rw [if_pos h1] at h
    simp at h
  · rw [if_neg h1] at h
    by_cases h2 : e.xferOk token sender (alookup 0 s.unclaimedBalances (sender, token)) = true
        ∧ alookup 0 s.unclaimedBalances (sender, token) ≤ alookup 0 s.custody token
    · rw [if_pos h2] at h
      injection h with hA hB
      subst hA
      unfold claimRefund
      dsimp only
      rw [alookup_aset_self, if_pos rfl]
    · rw [if_neg h2] at h
      simp at h

/-- Witness for C4: claiming the example unclaimed balance twice; the
second call reverts with InvalidAmounts and returns the state unchanged. -/
theorem C4_refund_idempotent_witness :
    claimRefund exEnvLate (claimRefund exEnv exStateU 5 10).1 5 10
      = ((claimRefund exEnv exStateU 5 10).1, .error .InvalidAmounts) :=
  C4_refund_idempotent exEnv exEnvLate exStateU (claimRefund exEnv exStateU 5 10).1 5 10 100 rfl

/-- Claim C1 (counterexample): strict escrow conservation — custody equals
the sum over active orders alone — holds before but fails after a
completed purgeExpiredOrders whose push refund fails: the order is
deactivated yet its escrow remains in custody (tracked in
unclaimedBalances, which the strict claim ignores). -/
theorem C1_counterexample :
    WFb exState = true ∧ strictConsvAt exState 10 ∧
    ¬ strictConsvAt (purgeExpiredOrders exEnvLateFail exState exKey 10) 10 := by
  refine ⟨by decide, ?_, ?_⟩
  · show custodyOf exState 10 = activeEscrow exState 10
    decide
  · intro hc
    have hc2 : custodyOf (purgeExpiredOrders exEnvLateFail exState exKey 10) 10
        = activeEscrow (purgeExpiredOrders exEnvLateFail exState exKey 10) 10 := hc
    exact absurd hc2 (by set_option maxRecDepth 8000 in decide)

/-- Claim C1 (amended): escrow conservation holds in the amended form:
for each asset, the custody balance equals the sum of active-order escrow
plus the unclaimed (failed-refund) balances, and this invariant is
preserved by every completed operation from any well-formed state
satisfying it. -/
theorem C1_escrow_conservation (e : Env) (s : HookState) (a : Act) (t : Nat)
    (hWF : WFb s = true) (hc : Consv s) : consvAt (applyAct e s a).1 t := by
  rw [WFb_iff_WFp] at hWF
  exact consv_applyAct e s a hWF hc t

/-- Witness for the amended C1: conservation of asset 10 after a purge
with a failing refund push on the example state. -/
theorem C1_escrow_conservation_witness :
    consvAt (applyAct exEnvLateFail exState (Act.purge exKey 10)).1 10 :=
  C1_escrow_conservation exEnvLateFail exState (Act.purge exKey 10) 10 (by decide) exState_consv

/-- Claim C2: no double match.  When beforeSwap selects an order as the
match, the post-state has the order's active flag false and its id absent
from every pool index list, and no later invocation of any entry point in
any subsequent trace ever reports that order as matched again. -/
theorem C2_no_double_match (e : Env) (s : HookState) (sender : Nat) (key : PoolKey)
    (params : SwapParams) (id mk tin tout tp ma : Nat) (sp un : Int)
    (tr : List (Env × Act))
    (hWF : WFb s = true)
    (hm : (beforeSwap e s sender key params).2 = .ok (.matched id mk tin tout tp ma sp un)) :
    ((beforeSwap e s sender key params).1.orders id).active = false ∧
    notInAnyPoolB (beforeSwap e s sender key params).1 id = true ∧
    id ∉ matchedIds (beforeSwap e s sender key params).1 tr := by
  rw [WFb_iff_WFp] at hWF
  obtain ⟨hf, hpred, -, -, -, -, -, -, -, -, -, hstate⟩ :=
    beforeSwap_matched_inv e s sender key params id mk tin tout tp ma sp un hm
  have hmem : id ∈ poLookup s key :=
    List.mem_of_mem_take (List.mem_of_find?_eq_some hf)
  obtain ⟨hlt, hact, hpool⟩ := poLookup_props s hWF key id hmem
  obtain ⟨hnd', hnm', hiff', -⟩ :=
    removeOrder_spec (poLookup s key) id hmem (poLookup_nodup s hWF key)
  have hina : ((beforeSwap e s sender key params).1.orders id).active = false := by
    rw [hstate]
    dsimp only
    simp [setOrder]
  refine ⟨hina, ?_, ?_⟩
  · rw [hstate]
    unfold notInAnyPoolB
    rw [List.all_eq_true]
    intro kv hkv
    dsimp only at hkv ⊢
    rw [decide_eq_true_eq]
    rcases mem_aset_nodup _ _ _ hWF.1 kv hkv with hkv' | ⟨hkv', hkne⟩
    · rw [hkv']
      exact hnm'
    · intro hidkv
      obtain ⟨-, -, hpool'⟩ := (hWF.2.1 kv hkv').2 id hidkv
      exact hkne (by rw [← hpool', hpool])
  · have hlt' : id < (beforeSwap e s sender key params).1.nextOrderId := by
      rw [hstate]
      exact hlt
    exact matchedIds_no_reuse tr _ id hlt' hina

/-- Witness for C2: the example match of order 0, followed by a trace
that immediately attempts the identical swap again. -/
theorem C2_no_double_match_witness :
    ((beforeSwap exEnv exState 6 exKey ⟨false, -100⟩).1.orders 0).active = false ∧
    notInAnyPoolB (beforeSwap exEnv exState 6 exKey ⟨false, -100⟩).1 0 = true ∧
    0 ∉ matchedIds (beforeSwap exEnv exState 6 exKey ⟨false, -100⟩).1
      [(exEnv, Act.swap 6 exKey ⟨false, -100⟩)] :=
  C2_no_double_match exEnv exState 6 exKey ⟨false, -100⟩ 0 5 11 10 95 100 95 (-100)
    [(exEnv, Act.swap 6 exKey ⟨false, -100⟩)] (by decide)
    (by set_option maxRecDepth 4000 in rfl)

/-- Claim C3 (counterexample): the claim that a match's returned delta
always reports amountIn on the unspecified side fails when amountIn
exceeds the int128 range: the match completes, but the reinterpreting
cast int128(uint128(amountIn)) wraps, so the unspecified delta is
2^127 - 1 instead of -(2^127 + 1). -/
theorem C3_counterexample :
    (beforeSwap exEnv cex3State 6 exKey ⟨false, -100⟩).2
      = .ok (.matched 0 5 11 10 95 (2 ^ 127 + 1) 95 (2 ^ 127 - 1)) ∧
    (2 ^ 127 - 1 : Int) ≠ - ((2 ^ 127 + 1 : Nat) : Int) := by
  refine ⟨by set_option maxRecDepth 4000 in rfl, by decide⟩

/-- Claim C3 (amended): whenever beforeSwap matches an order whose
amountIn fits in int128 (amountIn < 2^127), the taker pays exactly the
order's minAmountOut, delivered to the maker as the swap's input
currency — not the taker's full offered input even when larger — the
maker's full escrowed amountIn is released from custody toward the taker,
and the returned delta reports minAmountOut on the specified side and
-amountIn on the unspecified side. -/
theorem C3_settlement_amounts (e : Env) (s : HookState) (sender : Nat) (key : PoolKey)
    (params : SwapParams) (id mk tin tout tp ma : Nat) (sp un : Int)
    (hm : (beforeSwap e s sender key params).2 = .ok (.matched id mk tin tout tp ma sp un))
    (hsmall : (s.orders id).amountIn < 2 ^ 127) :
    tp = (s.orders id).minAmountOut ∧ ma = (s.orders id).amountIn ∧
    mk = (s.orders id).maker ∧
    tin = (if params.zeroForOne then key.currency0 else key.currency1) ∧
    tout = (if params.zeroForOne then key.currency1 else key.currency0) ∧
    sp = ((s.orders id).minAmountOut : Int) ∧
    un = - ((s.orders id).amountIn : Int) ∧
    custodyOf (beforeSwap e s sender key params).1 tout + (s.orders id).amountIn
      = custodyOf s tout := by
  obtain ⟨hf, hpred, hmk, htin, htout, htp, hma, hsp, hun, habs, hcust, hstate⟩ :=
    beforeSwap_matched_inv e s sender key params id mk tin tout tp ma sp un hm
  obtain ⟨-, -, -, hminle⟩ := (matchOkB_iff _ _ _ _).1 hpred
  have hminlt : (s.orders id).minAmountOut < 2 ^ 127 := by
    unfold INT128_MAX at habs
    omega
  refine ⟨htp, hma, hmk, htin, htout, ?_, ?_, ?_⟩
  · rw [hsp]
    unfold int128OfUInt128
    rw [if_pos hminlt]
  · rw [hun]
    unfold int128OfUInt128
    rw [if_pos hsmall]
  · rw [htout, hstate]
    unfold custodyOf
    dsimp only
    rw [alookup_aset_self]
    omega

/-- Witness for the amended C3: scenario 1 of the spec.  Maker sells 100
of asset 10 for min 95 of asset 11; the taker offers 100 of asset 11;
the maker receives exactly 95, the full 100 escrow is released, and the
delta is (95, -100). -/
theorem C3_settlement_amounts_witness :
    95 = (exState.orders 0).minAmountOut ∧ 100 = (exState.orders 0).amountIn ∧
    5 = (exState.orders 0).maker ∧
    11 = (if (false : Bool) then exKey.currency0 else exKey.currency1) ∧
    10 = (if (false : Bool) then exKey.currency1 else exKey.currency0) ∧
    (95 : Int) = ((exState.orders 0).minAmountOut : Int) ∧
    (-100 : Int) = - ((exState.orders 0).amountIn : Int) ∧
    custodyOf (beforeSwap exEnv exState 6 exKey ⟨false, -100⟩).1 10
        + (exState.orders 0).amountIn
      = custodyOf exState 10 :=
  C3_settlement_amounts exEnv exState 6 exKey ⟨false, -100⟩ 0 5 11 10 95 100 95 (-100)
    (by set_option maxRecDepth 4000 in rfl) (by decide)

/-- Claim C6: index/active agreement.  Well-formedness — an order id
appears in some pool's index iff that order is active (and then the pool
is its stored poolId), with duplicate-free index lists — is preserved by
every operation: each code path that deactivates an order (cancel, match,
purge) removes its id from the index in the same operation, and postOrder
appends the new id while setting active true. -/
theorem C6_index_active_agreement (e : Env) (s : HookState) (a : Act)
    (hWF : WFb s = true) : WFb (applyAct e s a).1 = true := by
  rw [WFb_iff_WFp] at hWF ⊢
  exact WFp_applyAct e s a hWF

/-- Witness for C6: agreement is preserved across a cancel on the example
state. -/
theorem C6_index_active_agreement_witness :
    WFb (applyAct exEnv exState (Act.cancel 5 0 exKey)).1 = true :=
  C6_index_active_agreement exEnv exState (Act.cancel 5 0 exKey) (by decide)

/-- Claim C7: purge completeness and bound.  purgeExpiredOrders removes
exactly min(number of active strictly-expired entries, maxPurge) entries
from the market's index; when the budget covers them, every active
strictly-expired order in the index is deactivated and removed (the
swap-and-popped element is itself re-examined, so none is skipped), and
every other indexed order is untouched and stays indexed. -/
theorem C7_purge_complete_bounded (e : Env) (s : HookState) (key : PoolKey)
    (maxPurge id : Nat) (hWF : WFb s = true) (hid : id ∈ poLookup s key) :
    ((poLookup (purgeExpiredOrders e s key maxPurge) key).length
        + min ((poLookup s key).countP (fun j => expiredActiveB (s.orders j) e.now)) maxPurge
      = (poLookup s key).length) ∧
    (expiredActiveB (s.orders id) e.now = false →
      (purgeExpiredOrders e s key maxPurge).orders id = s.orders id ∧
      id ∈ poLookup (purgeExpiredOrders e s key maxPurge) key) ∧
    (expiredActiveB (s.orders id) e.now = true →
      (poLookup s key).countP (fun j => expiredActiveB (s.orders j) e.now) ≤ maxPurge →
      (purgeExpiredOrders e s key maxPurge).orders id = { s.orders id with active := false } ∧
      id ∉ poLookup (purgeExpiredOrders e s key maxPurge) key) := by
  rw [WFb_iff_WFp] at hWF
  have hnd := poLookup_nodup s hWF key
  unfold purgeExpiredOrders
  refine ⟨?_, ?_, ?_⟩
  · have hcount := purgeLoop_count e key maxPurge (poLookup s key).length s 0 0
      (by omega) hnd (by intro j hj; rw [List.take_zero] at hj; cases hj)
    rw [List.drop_zero, Nat.sub_zero] at hcount
    exact hcount
  · intro hexp
    exact purgeLoop_keep e key maxPurge (poLookup s key).length s 0 0 hnd id hid hexp
  · intro hexp hcnt
    refine purgeLoop_purge_all e key maxPurge (poLookup s key).length s 0 0
      (by omega) hnd ?_ id ?_ hexp
    · rw [List.drop_zero, Nat.sub_zero]
      exact hcnt
    · rw [List.drop_zero]
      exact hid

/-- Witness for C7 on a two-order market at timestamp 5000: order 0 is
expired and gets purged, order 1 is not. -/
theorem C7_purge_complete_bounded_witness :
    ((poLookup (purgeExpiredOrders exEnvLate ex7State exKey 5) exKey).length
        + min ((poLookup ex7State exKey).countP
            (fun j => expiredActiveB (ex7State.orders j) exEnvLate.now)) 5
      = (poLookup ex7State exKey).length) ∧
    (expiredActiveB (ex7State.orders 0) exEnvLate.now = false →
      (purgeExpiredOrders exEnvLate ex7State exKey 5).orders 0 = ex7State.orders 0 ∧
      0 ∈ poLookup (purgeExpiredOrders exEnvLate ex7State exKey 5) exKey) ∧
    (expiredActiveB (ex7State.orders 0) exEnvLate.now = true →
      (poLookup ex7State exKey).countP
          (fun j => expiredActiveB (ex7State.orders j) exEnvLate.now) ≤ 5 →
      (purgeExpiredOrders exEnvLate ex7State exKey 5).orders 0
        = { ex7State.orders 0 with active := false } ∧
      0 ∉ poLookup (purgeExpiredOrders exEnvLate ex7State exKey 5) exKey) :=
  C7_purge_complete_bounded exEnvLate ex7State exKey 5 0 (by decide) (by decide)

/-- Claim C10: implicit expiry boundary.  An order whose expiry equals the
current timestamp exactly is not purged (purge requires now > expiry):
its data and index entry survive purgeExpiredOrders unchanged; and it is
still eligible for matching: a beforeSwap whose scan window contains such
an order passing the other filters cannot return the no-match result. -/
theorem C10_expiry_boundary (e : Env) (s : HookState) (key : PoolKey) (maxPurge : Nat)
    (sender id : Nat) (params : SwapParams)
    (hWF : WFb s = true)
    (hexp : (s.orders id).expiry = e.now)
    (hmem : id ∈ poLookup s key)
    (hw : sender ∈ s.allowedBots)
    (hneg : params.amountSpecified < 0)
    (hmin : ¬ params.amountSpecified = INT256_MIN)
    (habs : (- params.amountSpecified).toNat ≤ INT128_MAX)
    (hidtake : id ∈ (poLookup s key).take MAX_ITERATIONS)
    (hact : (s.orders id).active = true)
    (hside : (s.orders id).sellToken0 ≠ params.zeroForOne)
    (hamt : (s.orders id).minAmountOut ≤ (- params.amountSpecified).toNat) :
    ((purgeExpiredOrders e s key maxPurge).orders id = s.orders id ∧
      id ∈ poLookup (purgeExpiredOrders e s key maxPurge) key) ∧
    (beforeSwap e s sender key params).2 ≠ .ok SwapResult.noMatch := by
  rw [WFb_iff_WFp] at hWF
  have hexpF : expiredActiveB (s.orders id) e.now = false := by
    rw [Bool.eq_false_iff]
    intro hc
    obtain ⟨-, hgt⟩ := (expiredActiveB_iff _ _).1 hc
    omega
  constructor
  · exact purgeLoop_keep e key maxPurge (poLookup s key).length s 0 0
      (poLookup_nodup s hWF key) id hmem hexpF
  · have hpredid : matchOkB (s.orders id) params.zeroForOne
        ((- params.amountSpecified).toNat) e.now = true :=
      (matchOkB_iff _ _ _ _).2 ⟨hact, by omega, hside, hamt⟩
    unfold beforeSwap
    rw [if_neg (fun hc => hc hw), if_neg (not_le.2 hneg), if_neg hmin]
    dsimp only
    rw [if_neg (not_lt.2 habs)]
    cases hf : ((poLookup s key).take MAX_ITERATIONS).find?
        (fun j => matchOkB (s.orders j) params.zeroForOne
          ((- params.amountSpecified).toNat) e.now) with
    | none =>
      rw [List.find?_eq_none] at hf
      exact absurd hpredid (hf id hidtake)
    | some j =>
      dsimp only
      by_cases h5 : e.xferOk (if params.zeroForOne then key.currency1 else key.currency0)
            pmAddr (s.orders j).amountIn = true
          ∧ (s.orders j).amountIn ≤ alookup 0 s.custody
            (if params.zeroForOne then key.currency1 else key.currency0)
      · rw [if_pos h5]
        by_cases h6 : int128OfUInt128 (s.orders j).amountIn = -(2 ^ 127)
        · rw [if_pos h6]
          intro hc
          simp at hc
        · rw [if_neg h6]
          intro hc
          simp at hc
      · rw [if_neg h5]
        intro hc
        simp at hc

set_option maxRecDepth 10000 in
/-- Witness for C10 at the exact expiry timestamp 3700 of the example
order: it survives the purge and the swap scan does not fall through. -/
theorem C10_expiry_boundary_witness :
    ((purgeExpiredOrders exEnvBoundary exState exKey 5).orders 0 = exState.orders 0 ∧
      0 ∈ poLookup (purgeExpiredOrders exEnvBoundary exState exKey 5) exKey) ∧
    (beforeSwap exEnvBoundary exState 6 exKey ⟨false, -100⟩).2
      ≠ .ok SwapResult.noMatch :=
  C10_expiry_boundary exEnvBoundary exState exKey 5 6 0 ⟨false, -100⟩
    (by decide) (by decide) (by decide) (by decide) (by decide) (by decide) (by decide)
    (by decide) (by decide) (by decide) (by decide)
